import Mathlib

/-!
The request pipeline of the marshal-go-sdk API client.

A shallow embedding of `client.go`, `errors.go`, `models.go`, `validator.go`
and `repair.go`.  Go strings and byte slices are lists of bytes (`Nat` values
below 256).  The pieces of the Go standard library the client calls
(`encoding/json`, `unicode/utf8`, `net/http`) are modelled next to the code
that uses them; what lies outside the program (which URLs parse, what the
transport answers) is a parameter, `World`.  A call returns its results
together with the list of its events, so that what was sent and whether the
response body was closed can be stated.
-/

namespace Marshal

/-- Go `string` and `[]byte`: a sequence of bytes, each a natural number below 256. -/
abbrev GoString := List Nat

/-- The bytes of an ASCII literal. -/
def ascii (s : String) : GoString := s.toList.map Char.toNat

/-! ## unicode/utf8 -/

/-- The rune U+FFFD, `utf8.RuneError` and `unicode.ReplacementChar`. -/
def RuneError : Nat := 0xFFFD

/-- The bounds `acceptRanges` gives for the second byte after lead byte `p0`. -/
def acceptRange (p0 : Nat) : Nat × Nat :=
  if p0 = 0xE0 then (0xA0, 0xBF)
  else if p0 = 0xED then (0x80, 0x9F)
  else if p0 = 0xF0 then (0x90, 0xBF)
  else if p0 = 0xF4 then (0x80, 0x8F)
  else (0x80, 0xBF)

/-- The function `utf8.DecodeRune`: the first rune of `p` and its width in bytes;
`(RuneError, 1)` for an ill-formed sequence, `(RuneError, 0)` for no input.
Masks and shifts are written as remainders and products. -/
def decodeRune : GoString → Nat × Nat
  | [] => (RuneError, 0)
  | p0 :: t =>
    if p0 < 0x80 then (p0, 1)
    else if p0 < 0xC2 ∨ 0xF4 < p0 then (RuneError, 1)
    else
      match t with
      | [] => (RuneError, 1)
      | b1 :: t1 =>
        if b1 < (acceptRange p0).1 ∨ (acceptRange p0).2 < b1 then (RuneError, 1)
        else if p0 < 0xE0 then ((p0 % 32) * 64 + b1 % 64, 2)
        else
          match t1 with
          | [] => (RuneError, 1)
          | b2 :: t2 =>
            if b2 < 0x80 ∨ 0xBF < b2 then (RuneError, 1)
            else if p0 < 0xF0 then ((p0 % 16) * 4096 + (b1 % 64) * 64 + b2 % 64, 3)
            else
              match t2 with
              | [] => (RuneError, 1)
              | b3 :: _ =>
                if b3 < 0x80 ∨ 0xBF < b3 then (RuneError, 1)
                else ((p0 % 8) * 262144 + (b1 % 64) * 4096 + (b2 % 64) * 64 + b3 % 64, 4)

/-- The function `utf8.AppendRune` on an empty buffer: the UTF-8 encoding of a
rune, that of U+FFFD for a surrogate or a value above U+10FFFF. -/
def encodeRune (r : Nat) : GoString :=
  if r ≤ 0x7F then [r]
  else if r ≤ 0x7FF then [0xC0 + r / 64, 0x80 + r % 64]
  else if 0x10FFFF < r ∨ (0xD800 ≤ r ∧ r ≤ 0xDFFF) then [0xEF, 0xBF, 0xBD]
  else if r ≤ 0xFFFF then [0xE0 + r / 4096, 0x80 + (r / 64) % 64, 0x80 + r % 64]
  else [0xF0 + r / 262144, 0x80 + (r / 4096) % 64, 0x80 + (r / 64) % 64, 0x80 + r % 64]

/-- The loop of `utf8.Valid`: `skip` counts the bytes still owed to the rune
decoded last. -/
def utf8ValidFrom : Nat → GoString → Bool
  | 0, [] => true
  | _ + 1, [] => false
  | k + 1, _ :: t => utf8ValidFrom k t
  | 0, c :: t =>
    if (decodeRune (c :: t)).1 = RuneError ∧ (decodeRune (c :: t)).2 = 1 then false
    else utf8ValidFrom ((decodeRune (c :: t)).2 - 1) t

/-- The function `utf8.Valid`. -/
def utf8Valid (s : GoString) : Bool := utf8ValidFrom 0 s

/-! ## encoding/json: reading -/

/-- A JSON value as `encoding/json` reads it: member order and repeated names
are kept, strings are already unquoted, numbers keep their literal text. -/
inductive JValue where
  | null
  | bool (b : Bool)
  | num (lit : GoString)
  | str (s : GoString)
  | arr (items : List JValue)
  | obj (members : List (GoString × JValue))

/-- The scanner predicate `isSpace`. -/
def isSpace (c : Nat) : Bool := c = 0x20 ∨ c = 0x09 ∨ c = 0x0D ∨ c = 0x0A

/-- The call `scanWhile(scanSkipSpace)`. -/
def skipSpace : GoString → GoString
  | [] => []
  | c :: t => if isSpace c then skipSpace t else c :: t

/-- The value of a hexadecimal digit, as the scanner and `getu4` accept it. -/
def hexVal (c : Nat) : Option Nat :=
  if 0x30 ≤ c ∧ c ≤ 0x39 then some (c - 0x30)
  else if 0x61 ≤ c ∧ c ≤ 0x66 then some (c - 0x61 + 10)
  else if 0x41 ≤ c ∧ c ≤ 0x46 then some (c - 0x41 + 10)
  else none

/-- The function `getu4` on input that starts at the backslash: the value of a
`\uXXXX` escape, `none` where Go returns -1. -/
def getu4 : GoString → Option Nat
  | 0x5C :: 0x75 :: a :: b :: c :: d :: _ =>
    match hexVal a, hexVal b, hexVal c, hexVal d with
    | some x, some y, some z, some w => some (x * 4096 + y * 256 + z * 16 + w)
    | _, _, _, _ => none
  | _ => none

/-- The function `utf16.DecodeRune` with the second half possibly missing. -/
def utf16DecodeRune (r1 : Nat) (r2 : Option Nat) : Nat :=
  match r2 with
  | some r =>
    if 0xD800 ≤ r1 ∧ r1 < 0xDC00 ∧ 0xDC00 ≤ r ∧ r < 0xE000 then
      (r1 - 0xD800) * 1024 + (r - 0xDC00) + 0x10000
    else RuneError
  | none => RuneError

/-- The byte an escape letter stands for (`stateInStringEsc` and `unquoteBytes`);
`u` is handled apart. -/
def simpleEscape (e : Nat) : Option Nat :=
  if e = 0x22 ∨ e = 0x5C ∨ e = 0x2F then some e
  else if e = 0x62 then some 0x08
  else if e = 0x66 then some 0x0C
  else if e = 0x6E then some 0x0A
  else if e = 0x72 then some 0x0D
  else if e = 0x74 then some 0x09
  else none

/-- Put bytes in front of the text of a partial result. -/
def emit (bs : GoString) (r : Option (GoString × GoString)) : Option (GoString × GoString) :=
  r.map fun p => (bs ++ p.1, p.2)

/-- A string literal after its opening quote: the scanner states `stateInString`,
`stateInStringEsc`, `stateInStringEscU...` together with `unquoteBytes`.  Returns
the unquoted text and the input after the closing quote.  `skip` counts the
bytes already consumed with the rune or escape handled last. -/
def stringLit : Nat → GoString → Option (GoString × GoString)
  | _ + 1, [] => none
  | k + 1, _ :: t => stringLit k t
  | 0, [] => none
  | 0, c :: t =>
    if c = 0x22 then some ([], t)
    else if c = 0x5C then
      match t with
      | [] => none
      | e :: t1 =>
        if e = 0x75 then
          match getu4 (c :: t) with
          | none => none
          | some rr =>
            if 0xD800 ≤ rr ∧ rr < 0xE000 then
              if utf16DecodeRune rr (getu4 (t1.drop 4)) = RuneError then
                emit (encodeRune RuneError) (stringLit 5 t)
              else
                emit (encodeRune (utf16DecodeRune rr (getu4 (t1.drop 4)))) (stringLit 11 t)
            else emit (encodeRune rr) (stringLit 5 t)
        else
          match simpleEscape e with
          | none => none
          | some b => emit [b] (stringLit 1 t)
    else if c < 0x20 then none
    else if c < 0x80 then emit [c] (stringLit 0 t)
    else emit (encodeRune (decodeRune (c :: t)).1) (stringLit ((decodeRune (c :: t)).2 - 1) t)

/-- The longest run of decimal digits at the head of the input. -/
def spanDigits : GoString → GoString × GoString
  | [] => ([], [])
  | c :: t =>
    if 0x30 ≤ c ∧ c ≤ 0x39 then ((c :: (spanDigits t).1), (spanDigits t).2)
    else ([], c :: t)

/-- The exponent of a number (`stateE`, `stateESign`, `stateE0`), after `e` or `E`. -/
def numberExp (s : GoString) : Option (GoString × GoString) :=
  match s with
  | [] => none
  | c :: t =>
    if c = 0x2B ∨ c = 0x2D then
      if (spanDigits t).1 = [] then none else some (c :: (spanDigits t).1, (spanDigits t).2)
    else if (spanDigits s).1 = [] then none else some ((spanDigits s).1, (spanDigits s).2)

/-- What may follow the integer part (`state0`, `stateDot`, `stateDot0`). -/
def numberTail (s : GoString) : Option (GoString × GoString) :=
  match s with
  | 0x2E :: t =>
    if (spanDigits t).1 = [] then none
    else
      match (spanDigits t).2 with
      | e :: t1 =>
        if e = 0x65 ∨ e = 0x45 then
          (numberExp t1).map fun p => (0x2E :: (spanDigits t).1 ++ e :: p.1, p.2)
        else some (0x2E :: (spanDigits t).1, e :: t1)
      | [] => some (0x2E :: (spanDigits t).1, [])
  | e :: t =>
    if e = 0x65 ∨ e = 0x45 then (numberExp t).map fun p => (e :: p.1, p.2)
    else some ([], e :: t)
  | [] => some ([], [])

/-- The integer part of a number without its sign (`state0`, `state1`). -/
def numberInt (s : GoString) : Option (GoString × GoString) :=
  match s with
  | [] => none
  | c :: t =>
    if c = 0x30 then (numberTail t).map fun p => (c :: p.1, p.2)
    else if 0x31 ≤ c ∧ c ≤ 0x39 then
      (numberTail (spanDigits t).2).map fun p => (c :: (spanDigits t).1 ++ p.1, p.2)
    else none

/-- A number literal (`stateNeg`, `state0`, `state1`, ...): its text and the rest. -/
def numberLit (s : GoString) : Option (GoString × GoString) :=
  match s with
  | 0x2D :: t => (numberInt t).map fun p => (0x2D :: p.1, p.2)
  | _ => numberInt s

/-- The elements of an array after the first element has begun: a value, then
`,` and another element, or `]`.  `n` bounds the number of elements. -/
def parseElems (pv : GoString → Option (JValue × GoString)) :
    Nat → GoString → Option (List JValue × GoString)
  | 0, _ => none
  | n + 1, s =>
    match pv s with
    | none => none
    | some (v, r) =>
      match skipSpace r with
      | 0x2C :: r1 => (parseElems pv n r1).map fun p => (v :: p.1, p.2)
      | 0x5D :: r1 => some ([v], r1)
      | _ => none

/-- The members of an object after `{` or `,`: a string key, `:`, a value, then
`,` and another member, or `}`.  `n` bounds the number of members. -/
def parseMembers (pv : GoString → Option (JValue × GoString)) :
    Nat → GoString → Option (List (GoString × JValue) × GoString)
  | 0, _ => none
  | n + 1, s =>
    match skipSpace s with
    | 0x22 :: r =>
      match stringLit 0 r with
      | none => none
      | some (k, r1) =>
        match skipSpace r1 with
        | 0x3A :: r2 =>
          match pv r2 with
          | none => none
          | some (v, r3) =>
            match skipSpace r3 with
            | 0x2C :: r4 => (parseMembers pv n r4).map fun p => ((k, v) :: p.1, p.2)
            | 0x7D :: r4 => some ([(k, v)], r4)
            | _ => none
        | _ => none
    | _ => none

/-- The constant `maxNestingDepth` of the scanner. -/
def maxNestingDepth : Nat := 10000

/-- One JSON value at the head of the input, leading space skipped: the value
and the input after it.  The first argument is one more than the number of
array and object levels that may still be opened; running out of it is the
scanner error "exceeded max depth". -/
def parseValue : Nat → GoString → Option (JValue × GoString)
  | 0, _ => none
  | d + 1, s =>
    match skipSpace s with
    | [] => none
    | c :: t =>
      if c = 0x7B then
        if d = 0 then none
        else
          match skipSpace t with
          | 0x7D :: r => some (JValue.obj [], r)
          | _ => (parseMembers (parseValue d) t.length t).map fun p => (JValue.obj p.1, p.2)
      else if c = 0x5B then
        if d = 0 then none
        else
          match skipSpace t with
          | 0x5D :: r => some (JValue.arr [], r)
          | _ => (parseElems (parseValue d) t.length t).map fun p => (JValue.arr p.1, p.2)
      else if c = 0x22 then (stringLit 0 t).map fun p => (JValue.str p.1, p.2)
      else if c = 0x74 then
        match t with
        | 0x72 :: 0x75 :: 0x65 :: r => some (JValue.bool true, r)
        | _ => none
      else if c = 0x66 then
        match t with
        | 0x61 :: 0x6C :: 0x73 :: 0x65 :: r => some (JValue.bool false, r)
        | _ => none
      else if c = 0x6E then
        match t with
        | 0x75 :: 0x6C :: 0x6C :: r => some (JValue.null, r)
        | _ => none
      else (numberLit (c :: t)).map fun p => (JValue.num p.1, p.2)

/-- The first JSON value of the input (at most `maxNestingDepth` levels deep)
and what follows it. -/
def firstValue (data : GoString) : Option (JValue × GoString) :=
  parseValue (maxNestingDepth + 1) data

/-- The check `checkValid` of `json.Unmarshal` together with the reading of
the value: the whole input is one JSON value between optional white space. -/
def parseDocument (data : GoString) : Option JValue :=
  match firstValue data with
  | some (v, rest) => if skipSpace rest = [] then some v else none
  | none => none

/-- The function `json.Valid`: whether the input is one JSON value. -/
def jsonValid (data : GoString) : Bool := (parseDocument data).isSome

/-! ## models.go -/

/-- The struct `PingResponse`. -/
structure PingResponse where
  Message : GoString
deriving DecidableEq, Repr

/-- The struct `ValidateRequest`. -/
structure ValidateRequest where
  OpenAPISpec : GoString
  JSONString : GoString
  OperationID : GoString
deriving DecidableEq, Repr

/-- The struct `ValidationError`. -/
structure ValidationError where
  Field : GoString
  Error : GoString
deriving DecidableEq, Repr

/-- A Go slice `[]ValidationError`: the nil slice, or a slice with its
elements and with `spare`, what its backing array still holds past its
length (left there by earlier, longer contents). -/
inductive ErrorSlice where
  | nil
  | slice (elems : List ValidationError) (spare : List ValidationError)
deriving DecidableEq, Repr

/-- The elements of a slice, none for the nil slice. -/
def ErrorSlice.elems : ErrorSlice → List ValidationError
  | ErrorSlice.nil => []
  | ErrorSlice.slice elems _ => elems

/-- What the backing array holds past the length of a slice. -/
def ErrorSlice.spare : ErrorSlice → List ValidationError
  | ErrorSlice.nil => []
  | ErrorSlice.slice _ spare => spare

/-- Whether a slice is the nil slice. -/
def ErrorSlice.isNil : ErrorSlice → Bool
  | ErrorSlice.nil => true
  | ErrorSlice.slice _ _ => false

/-- The struct `ValidateResponse`. -/
structure ValidateResponse where
  IsValid : Bool
  Errors : ErrorSlice
deriving DecidableEq, Repr

/-- The struct `FixJSONRequest`. -/
structure FixJSONRequest where
  JSONToFix : GoString
deriving DecidableEq, Repr

/-- The struct `FixJSONResponse`. -/
structure FixJSONResponse where
  FixedJSON : GoString
deriving DecidableEq, Repr

/-- The struct `ErrorResponse`. -/
structure ErrorResponse where
  Error : GoString
deriving DecidableEq, Repr

/-! ## encoding/json: storing a value into a struct -/

/-- The errors of `json.Unmarshal` and `(*json.Decoder).Decode`. -/
inductive JSONError where
  /-- No complete JSON value where one is required: `*json.SyntaxError`,
  `io.EOF`, `io.ErrUnexpectedEOF`, or the error of the reader. -/
  | noValue
  /-- The error `*json.UnmarshalTypeError`, with its `Value` field. -/
  | unmarshalType (value : GoString)
deriving DecidableEq, Repr

/-- The `Value` text of an `UnmarshalTypeError` for a JSON value. -/
def kindName : JValue → GoString
  | JValue.null => ascii "null"
  | JValue.bool _ => ascii "bool"
  | JValue.num _ => ascii "number"
  | JValue.str _ => ascii "string"
  | JValue.arr _ => ascii "array"
  | JValue.obj _ => ascii "object"

/-- The method `saveError`: the first error is kept. -/
def keepFirst (saved new : Option JSONError) : Option JSONError :=
  match saved with
  | some e => some e
  | none => new

/-- The function `foldName` on a member name, as far as it can matter for a
field name written in ASCII: lower-case ASCII letters become upper-case,
U+017F (bytes C5 BF) becomes `S`, U+212A (bytes E2 84 AA) becomes `K`; any other
rune folds to a rune outside ASCII and its bytes are left as they are. -/
def foldName : GoString → GoString
  | 0xC5 :: 0xBF :: t => 0x53 :: foldName t
  | 0xE2 :: 0x84 :: 0xAA :: t => 0x4B :: foldName t
  | c :: t => (if 0x61 ≤ c ∧ c ≤ 0x7A then c - 0x20 else c) :: foldName t
  | [] => []

/-- The field a member name selects: the field with exactly this name, else
the first field with the same folded name. -/
def findField (names : List GoString) (key : GoString) : Option Nat :=
  match names.findIdx? (fun n => n = key) with
  | some i => some i
  | none => names.findIdx? (fun n => foldName n = foldName key)

/-- Store a JSON value into a `string` field (`literalStore`, `object`, `array`). -/
def storeString (cur : GoString) (v : JValue) : GoString × Option JSONError :=
  match v with
  | JValue.str s => (s, none)
  | JValue.null => (cur, none)
  | _ => (cur, some (JSONError.unmarshalType (kindName v)))

/-- Store a JSON value into a `bool` field. -/
def storeBool (cur : Bool) (v : JValue) : Bool × Option JSONError :=
  match v with
  | JValue.bool b => (b, none)
  | JValue.null => (cur, none)
  | _ => (cur, some (JSONError.unmarshalType (kindName v)))

/-- The types `encoding/json` fills in this package: how a JSON value is
stored into a value of the type, with the first error met. -/
class Decodable (α : Type) where
  store : α → JValue → α × Option JSONError

/-- Store the members of an object one after the other. -/
def storeMembers {α : Type} (step : α → GoString → JValue → α × Option JSONError)
    (cur : α) (members : List (GoString × JValue)) : α × Option JSONError :=
  members.foldl (fun st m => ((step st.1 m.1 m.2).1, keepFirst st.2 (step st.1 m.1 m.2).2))
    (cur, none)

/-- Store a JSON value into a struct whose members are handled by `step`:
an object is stored member by member, `null` changes nothing, anything else
is a type error. -/
def storeStruct {α : Type} (step : α → GoString → JValue → α × Option JSONError)
    (cur : α) (v : JValue) : α × Option JSONError :=
  match v with
  | JValue.obj members => storeMembers step cur members
  | JValue.null => (cur, none)
  | _ => (cur, some (JSONError.unmarshalType (kindName v)))

/-- One member of an object stored into an `ErrorResponse`. -/
def ErrorResponse.member (cur : ErrorResponse) (key : GoString) (v : JValue) :
    ErrorResponse × Option JSONError :=
  match findField [ascii "error"] key with
  | some _ => ({ Error := (storeString cur.Error v).1 }, (storeString cur.Error v).2)
  | none => (cur, none)

instance : Decodable ErrorResponse where
  store := storeStruct ErrorResponse.member

/-- One member of an object stored into a `PingResponse`. -/
def PingResponse.member (cur : PingResponse) (key : GoString) (v : JValue) :
    PingResponse × Option JSONError :=
  match findField [ascii "message"] key with
  | some _ => ({ Message := (storeString cur.Message v).1 }, (storeString cur.Message v).2)
  | none => (cur, none)

instance : Decodable PingResponse where
  store := storeStruct PingResponse.member

/-- One member of an object stored into a `FixJSONResponse`. -/
def FixJSONResponse.member (cur : FixJSONResponse) (key : GoString) (v : JValue) :
    FixJSONResponse × Option JSONError :=
  match findField [ascii "fixed_json"] key with
  | some _ => ({ FixedJSON := (storeString cur.FixedJSON v).1 }, (storeString cur.FixedJSON v).2)
  | none => (cur, none)

instance : Decodable FixJSONResponse where
  store := storeStruct FixJSONResponse.member

/-- One member of an object stored into a `ValidationError`. -/
def ValidationError.member (cur : ValidationError) (key : GoString) (v : JValue) :
    ValidationError × Option JSONError :=
  match findField [ascii "field", ascii "error"] key with
  | some 0 => ({ cur with Field := (storeString cur.Field v).1 }, (storeString cur.Field v).2)
  | some _ => ({ cur with Error := (storeString cur.Error v).1 }, (storeString cur.Error v).2)
  | none => (cur, none)

instance : Decodable ValidationError where
  store := storeStruct ValidationError.member

/-- The loop of `(*decodeState).array` on a slice: element `i` of the array is
stored into slot `i` of the backing array when the slice already reaches
that far, else into a fresh zero element.  Returns the elements stored, the
slots left over and the first error. -/
def storeItems : List JValue → List ValidationError →
    List ValidationError × List ValidationError × Option JSONError
  | [], slots => ([], slots, none)
  | x :: xs, slots =>
    ((Decodable.store (slots.headD { Field := [], Error := [] }) x).1 :: (storeItems xs slots.tail).1,
     (storeItems xs slots.tail).2.1,
     keepFirst (Decodable.store (slots.headD { Field := [], Error := [] }) x).2
       (storeItems xs slots.tail).2.2)

/-- Store a JSON value into a `[]ValidationError` field: an array is stored
element by element over the old contents and an empty array gives a fresh
empty slice; `null` gives the nil slice; anything else is a type error. -/
def storeSlice (cur : ErrorSlice) (v : JValue) : ErrorSlice × Option JSONError :=
  match v with
  | JValue.arr [] => (ErrorSlice.slice [] [], none)
  | JValue.arr items =>
    (ErrorSlice.slice (storeItems items (cur.elems ++ cur.spare)).1
       (storeItems items (cur.elems ++ cur.spare)).2.1,
     (storeItems items (cur.elems ++ cur.spare)).2.2)
  | JValue.null => (ErrorSlice.nil, none)
  | _ => (cur, some (JSONError.unmarshalType (kindName v)))

/-- One member of an object stored into a `ValidateResponse`. -/
def ValidateResponse.member (cur : ValidateResponse) (key : GoString) (v : JValue) :
    ValidateResponse × Option JSONError :=
  match findField [ascii "is_valid", ascii "errors"] key with
  | some 0 => ({ cur with IsValid := (storeBool cur.IsValid v).1 }, (storeBool cur.IsValid v).2)
  | some _ => ({ cur with Errors := (storeSlice cur.Errors v).1 }, (storeSlice cur.Errors v).2)
  | none => (cur, none)

instance : Decodable ValidateResponse where
  store := storeStruct ValidateResponse.member

/-- The function `json.Unmarshal(data, &dest)`: the input must be one JSON
value and nothing else, which is then stored into `dest`.  Returns the
destination afterwards and the error. -/
def jsonUnmarshal {α : Type} [Decodable α] (data : GoString) (dest : α) : α × Option JSONError :=
  match parseDocument data with
  | none => (dest, some JSONError.noValue)
  | some v => Decodable.store dest v

/-- A response body as a reader: `data` is everything it delivers and
`readErr` the text of the error that ends it, `none` for a clean `io.EOF`. -/
structure Body where
  data : GoString
  readErr : Option GoString
deriving DecidableEq, Repr

/-- The function `io.ReadAll`. -/
def readAll (b : Body) : Except GoString GoString :=
  match b.readErr with
  | none => Except.ok b.data
  | some e => Except.error e

/-- Whether a JSON value is a number. -/
def JValue.isNumber : JValue → Bool
  | JValue.num _ => true
  | _ => false

/-- The reading of one value by `(*Decoder).Decode`: the first JSON value of
the stream.  An array, an object, a string and a literal end with their own
last byte; a number ends at the byte after it or at a clean end of the
stream, so a number that is cut off by an error of the reader is not read.
What follows the value is not looked at. -/
def readValue (b : Body) : Option JValue :=
  match firstValue b.data with
  | none => none
  | some (v, rest) =>
    if v.isNumber = false ∨ rest ≠ [] ∨ b.readErr = none then some v else none

/-- The call `json.NewDecoder(body).Decode(&dest)`. -/
def jsonDecode {α : Type} [Decodable α] (b : Body) (dest : α) : α × Option JSONError :=
  match readValue b with
  | none => (dest, some JSONError.noValue)
  | some v => Decodable.store dest v

/-! ## encoding/json: writing -/

/-- The table `hex` of the encoder, "0123456789abcdef". -/
def hexDigit (n : Nat) : Nat := if n < 10 then 0x30 + n else 0x61 + (n - 10)

/-- The table `htmlSafeSet`: the ASCII bytes written as they are. -/
def htmlSafe (b : Nat) : Bool :=
  0x20 ≤ b ∧ b < 0x80 ∧ b ≠ 0x22 ∧ b ≠ 0x5C ∧ b ≠ 0x3C ∧ b ≠ 0x3E ∧ b ≠ 0x26

/-- What `appendString` writes for an ASCII byte outside `htmlSafeSet` (as of
Go 1.22; earlier releases write `\u0008` and `\u000c` for backspace and form
feed, which read back as the same bytes). -/
def escapeByte (b : Nat) : GoString :=
  if b = 0x5C ∨ b = 0x22 then [0x5C, b]
  else if b = 0x08 then [0x5C, 0x62]
  else if b = 0x0C then [0x5C, 0x66]
  else if b = 0x0A then [0x5C, 0x6E]
  else if b = 0x0D then [0x5C, 0x72]
  else if b = 0x09 then [0x5C, 0x74]
  else [0x5C, 0x75, 0x30, 0x30, hexDigit (b / 16), hexDigit (b % 16)]

/-- The loop of `appendString` with HTML escaping on, between the quotes:
safe ASCII and well-formed runes are copied, an ill-formed byte becomes
the three bytes EF BF BD of U+FFFD, U+2028 and U+2029 are escaped.  `skip`
counts the bytes already handled with the rune decoded last. -/
def appendStringFrom : Nat → GoString → GoString
  | _, [] => []
  | k + 1, _ :: t => appendStringFrom k t
  | 0, b :: t =>
    if b < 0x80 then
      (if htmlSafe b then [b] else escapeByte b) ++ appendStringFrom 0 t
    else if (decodeRune (b :: t)).1 = RuneError ∧ (decodeRune (b :: t)).2 = 1 then
      [0xEF, 0xBF, 0xBD] ++ appendStringFrom 0 t
    else if (decodeRune (b :: t)).1 = 0x2028 ∨ (decodeRune (b :: t)).1 = 0x2029 then
      [0x5C, 0x75, 0x32, 0x30, 0x32, hexDigit ((decodeRune (b :: t)).1 % 16)]
        ++ appendStringFrom ((decodeRune (b :: t)).2 - 1) t
    else
      (b :: t).take (decodeRune (b :: t)).2 ++ appendStringFrom ((decodeRune (b :: t)).2 - 1) t

/-- The function `appendString`: a Go string as a JSON string literal. -/
def appendString (s : GoString) : GoString := 0x22 :: appendStringFrom 0 s ++ [0x22]

/-- What `doRequest` receives as `body`: the request structs of this package. -/
inductive Payload where
  | validate (req : ValidateRequest)
  | fixJSON (req : FixJSONRequest)
deriving DecidableEq, Repr

/-- The function `json.Marshal` on a request struct: the fields in
declaration order under their `json` names, without white space.  Every field
is a string, so no value lacks a JSON form. -/
def jsonMarshal (p : Payload) : Except GoString GoString :=
  match p with
  | Payload.validate req =>
    Except.ok (ascii "\x7b\"open_api_spec\":" ++ appendString req.OpenAPISpec
      ++ ascii ",\"json_string\":" ++ appendString req.JSONString
      ++ ascii ",\"operation_id\":" ++ appendString req.OperationID ++ ascii "\x7d")
  | Payload.fixJSON req =>
    Except.ok (ascii "\x7b\"json_to_fix\":" ++ appendString req.JSONToFix ++ ascii "\x7d")

/-! ## net/http -/

/-- A `context.Context` that is not nil. -/
structure Context where
  id : Nat
deriving DecidableEq, Repr

/-- The map `http.Header` with one value per key. -/
abbrev Header := List (GoString × GoString)

/-- The method `Header.Set` for a key already in canonical form. -/
def Header.set (h : Header) (key value : GoString) : Header :=
  (h.filter fun p => p.1 ≠ key) ++ [(key, value)]

/-- The method `Header.Get`, `none` for a key that is not set. -/
def Header.get (h : Header) (key : GoString) : Option GoString :=
  (h.find? fun p => p.1 = key).map fun p => p.2

/-- The fields of `http.Request` the client sets. -/
structure Request where
  ctx : Context
  Method : GoString
  URL : GoString
  Header : Header
  Body : Option GoString
deriving DecidableEq, Repr

/-- The fields of `http.Response` the client reads. -/
structure Response where
  StatusCode : Int
  Body : Body
deriving DecidableEq, Repr

/-- A `*http.Client` that is not nil: its timeout in nanoseconds and a handle
for its transport, `none` for the default transport. -/
structure HTTPClient where
  Transport : Option Nat
  Timeout : Int
deriving DecidableEq, Repr

/-- What lies outside the program: which URLs `url.Parse` accepts, and what
`(*http.Client).Do` returns for a client and a request (a response, or the
text of an error). -/
structure World where
  urlParses : GoString → Bool
  Do : HTTPClient → Request → Except GoString Response

/-- The function `httpguts.IsTokenRune` on a byte. -/
def isTokenByte (c : Nat) : Bool :=
  (0x30 ≤ c ∧ c ≤ 0x39) ∨ (0x41 ≤ c ∧ c ≤ 0x5A) ∨ (0x61 ≤ c ∧ c ≤ 0x7A)
    ∨ c = 0x21 ∨ c = 0x23 ∨ c = 0x24 ∨ c = 0x25 ∨ c = 0x26 ∨ c = 0x27 ∨ c = 0x2A
    ∨ c = 0x2B ∨ c = 0x2D ∨ c = 0x2E ∨ c = 0x5E ∨ c = 0x5F ∨ c = 0x60 ∨ c = 0x7C
    ∨ c = 0x7E

/-- The function `validMethod` of net/http. -/
def validMethod (method : GoString) : Bool := method ≠ [] ∧ method.all isTokenByte

/-- The function `http.NewRequestWithContext`: fails on a method that is not a
token, on a nil context and on a URL that does not parse; the request it
returns has an empty header. -/
def newRequestWithContext (w : World) (ctx : Option Context) (method url : GoString)
    (body : Option GoString) : Except GoString Request :=
  if ¬ validMethod (if method = [] then ascii "GET" else method) then
    Except.error (ascii "net/http: invalid method")
  else
    match ctx with
    | none => Except.error (ascii "net/http: nil Context")
    | some cx =>
      if w.urlParses url then
        Except.ok { ctx := cx, Method := if method = [] then ascii "GET" else method,
                    URL := url, Header := [], Body := body }
      else Except.error (ascii "net/url: parse error")

/-! ## errors.go -/

/-- The struct `APIError`. -/
structure APIError where
  StatusCode : Int
  Message : GoString
  Response : Response
deriving DecidableEq, Repr

/-- The method `(*APIError).Error`. -/
def APIError.Error (e : APIError) : GoString :=
  ascii "marshal api error (status " ++ ascii (toString e.StatusCode) ++ ascii "): " ++ e.Message

/-- A Go `error` value as this package produces it. -/
inductive GoError where
  /-- A `*APIError`. -/
  | api (e : APIError)
  /-- The result of `fmt.Errorf(msg + ": %w", cause)`. -/
  | wrapped (msg : GoString) (cause : GoError)
  /-- An error of encoding/json. -/
  | json (e : JSONError)
  /-- Any other error of the standard library, with its text. -/
  | other (text : GoString)
deriving DecidableEq, Repr

/-- The type assertion `err.(*APIError)`. -/
def GoError.asAPIError : GoError → Option APIError
  | GoError.api e => some e
  | _ => none

/-- Whether a `*APIError` occurs in the chain of an error (`errors.As`). -/
def GoError.hasAPIError : GoError → Bool
  | GoError.api _ => true
  | GoError.wrapped _ cause => cause.hasAPIError
  | _ => false

/-- The function `parseErrorResponse`. -/
def parseErrorResponse (resp : Response) : GoError :=
  match readAll resp.Body with
  | Except.error err =>
    GoError.api
      { StatusCode := resp.StatusCode,
        Message := ascii "failed to read error response: " ++ err,
        Response := resp }
  | Except.ok body =>
    match (jsonUnmarshal body ({ Error := [] } : ErrorResponse)).2 with
    | some _ =>
      GoError.api { StatusCode := resp.StatusCode, Message := body, Response := resp }
    | none =>
      GoError.api
        { StatusCode := resp.StatusCode,
          Message := (jsonUnmarshal body ({ Error := [] } : ErrorResponse)).1.Error,
          Response := resp }

/-! ## client.go -/

/-- The constant `DefaultBaseURL`. -/
def DefaultBaseURL : GoString := ascii "https://api.laddergrid.com"

/-- The constant `DefaultTimeout`, 30 seconds in nanoseconds. -/
def DefaultTimeout : Int := 30 * 1000000000

/-- The struct `Client`. -/
structure Client where
  baseURL : GoString
  httpClient : HTTPClient
  apiKey : GoString
deriving DecidableEq, Repr

/-- The type `Option` of client.go: a function that changes the client. -/
abbrev ClientOption := Client → Client

/-- The function `WithBaseURL`. -/
def WithBaseURL (baseURL : GoString) : ClientOption :=
  fun c => { c with baseURL := baseURL }

/-- The function `WithHTTPClient`. -/
def WithHTTPClient (httpClient : HTTPClient) : ClientOption :=
  fun c => { c with httpClient := httpClient }

/-- The function `NewClient`. -/
def NewClient (apiKey : GoString) (opts : List ClientOption) : Client :=
  opts.foldl (fun client opt => opt client)
    { baseURL := DefaultBaseURL,
      httpClient := { Transport := none, Timeout := DefaultTimeout },
      apiKey := apiKey }

/-- What a call does to the outside, in order. -/
inductive Event where
  /-- The request handed to `httpClient.Do`. -/
  | send (req : Request)
  /-- The response body is read. -/
  | readBody
  /-- The method `resp.Body.Close` is called. -/
  | closeBody
deriving DecidableEq, Repr

/-- What a call of `doRequest` leaves behind: the error it returns, the value
behind `result` afterwards (`none` for a nil `result`), and its events. -/
structure Outcome (α : Type) where
  err : Option GoError
  result : Option α
  trace : List Event

/-- The part of `doRequest` after `defer resp.Body.Close()`. -/
def handleResponse {α : Type} [Decodable α] (resp : Response) (result : Option α) : Outcome α :=
  if resp.StatusCode < 200 ∨ resp.StatusCode ≥ 300 then
    { err := some (parseErrorResponse resp), result := result, trace := [Event.readBody] }
  else
    match result with
    | some dest =>
      match (jsonDecode resp.Body dest).2 with
      | some err =>
        { err := some (GoError.wrapped (ascii "failed to decode response") (GoError.json err)),
          result := some (jsonDecode resp.Body dest).1, trace := [Event.readBody] }
      | none =>
        { err := none, result := some (jsonDecode resp.Body dest).1, trace := [Event.readBody] }
    | none => { err := none, result := none, trace := [] }

/-- The first step of `doRequest`: a body that is not nil is passed to
`json.Marshal`, whose bytes become the reader of the request body. -/
def marshalBody (body : Option Payload) : Except GoString (Option GoString) :=
  match body with
  | some b =>
    match jsonMarshal b with
    | Except.ok jsonData => Except.ok (some jsonData)
    | Except.error err => Except.error err
  | none => Except.ok none

/-- The method `doRequest`. -/
def doRequest {α : Type} [Decodable α] (w : World) (c : Client) (ctx : Option Context)
    (method path : GoString) (body : Option Payload) (result : Option α)
    (requireAuth : Bool) : Outcome α :=
  match marshalBody body with
  | Except.error err =>
    { err := some (GoError.wrapped (ascii "failed to marshal request body") (GoError.other err)),
      result := result, trace := [] }
  | Except.ok bodyReader =>
    match newRequestWithContext w ctx method (c.baseURL ++ path) bodyReader with
    | Except.error err =>
      { err := some (GoError.wrapped (ascii "failed to create request") (GoError.other err)),
        result := result, trace := [] }
    | Except.ok req0 =>
      let req1 : Request :=
        if body.isSome then
          { req0 with Header := req0.Header.set (ascii "Content-Type") (ascii "application/json") }
        else req0
      let req : Request :=
        if requireAuth ∧ c.apiKey ≠ [] then
          { req1 with Header := req1.Header.set (ascii "Authorization") (ascii "Bearer " ++ c.apiKey) }
        else req1
      match w.Do c.httpClient req with
      | Except.error err =>
        { err := some (GoError.wrapped (ascii "failed to execute request") (GoError.other err)),
          result := result, trace := [Event.send req] }
      | Except.ok resp =>
        { err := (handleResponse resp result).err,
          result := (handleResponse resp result).result,
          trace := Event.send req :: (handleResponse resp result).trace ++ [Event.closeBody] }

/-- What an operation returns: the pointer to its result (`none` for nil) and
the error, with the events of the call. -/
structure Returned (α : Type) where
  value : Option α
  err : Option GoError
  trace : List Event

/-- The method `Ping`. -/
def Ping (w : World) (c : Client) (ctx : Option Context) : Returned PingResponse :=
  let out := doRequest w c ctx (ascii "GET") (ascii "/ping") none
    (some ({ Message := [] } : PingResponse)) false
  match out.err with
  | some err => { value := none, err := some err, trace := out.trace }
  | none => { value := out.result, err := none, trace := out.trace }

/-! ## validator.go -/

/-- The method `ValidateJSON`. -/
def ValidateJSON (w : World) (c : Client) (ctx : Option Context)
    (openAPISpec jsonString operationID : GoString) : Returned ValidateResponse :=
  let req : ValidateRequest :=
    { OpenAPISpec := openAPISpec, JSONString := jsonString, OperationID := operationID }
  let out := doRequest w c ctx (ascii "POST") (ascii "/validator/validate")
    (some (Payload.validate req))
    (some ({ IsValid := false, Errors := ErrorSlice.nil } : ValidateResponse)) true
  match out.err with
  | some err => { value := none, err := some err, trace := out.trace }
  | none => { value := out.result, err := none, trace := out.trace }

/-! ## repair.go -/

/-- The method `FixJSON`. -/
def FixJSON (w : World) (c : Client) (ctx : Option Context) (jsonToFix : GoString) :
    Returned FixJSONResponse :=
  let req : FixJSONRequest := { JSONToFix := jsonToFix }
  let out := doRequest w c ctx (ascii "POST") (ascii "/repair/fix-json")
    (some (Payload.fixJSON req)) (some ({ FixedJSON := [] } : FixJSONResponse)) true
  match out.err with
  | some err => { value := none, err := some err, trace := out.trace }
  | none => { value := out.result, err := none, trace := out.trace }

/-! ## Definitions used to state the properties -/

/-- The request the pipeline is expected to hand to the transport. -/
def expectedRequest (c : Client) (cx : Context) (method path : GoString)
    (body : Option GoString) (requireAuth : Bool) : Request :=
  { ctx := cx,
    Method := if method = [] then ascii "GET" else method,
    URL := c.baseURL ++ path,
    Header :=
      (if body.isSome then [(ascii "Content-Type", ascii "application/json")] else [])
        ++ (if requireAuth ∧ c.apiKey ≠ [] then [(ascii "Authorization", ascii "Bearer " ++ c.apiKey)]
            else []),
    Body := body }

/-- The bytes `json.Marshal` gives for an optional payload. -/
def bodyBytes (body : Option Payload) : Option GoString :=
  match body with
  | some p =>
    match jsonMarshal p with
    | Except.ok b => some b
    | Except.error _ => none
  | none => none

/-- One option passed to `NewClient`, built by `WithBaseURL` or by
`WithHTTPClient`. -/
inductive Setting where
  | baseURL (u : GoString)
  | httpClient (h : HTTPClient)
deriving DecidableEq, Repr

/-- The Go option a setting stands for. -/
def Setting.toOption : Setting → ClientOption
  | Setting.baseURL u => WithBaseURL u
  | Setting.httpClient h => WithHTTPClient h

/-- The argument of the last `WithBaseURL` in a list of options. -/
def lastBaseURL (settings : List Setting) : Option GoString :=
  (settings.filterMap fun s =>
    match s with
    | Setting.baseURL u => some u
    | Setting.httpClient _ => none).getLast?

/-- The argument of the last `WithHTTPClient` in a list of options. -/
def lastHTTPClient (settings : List Setting) : Option HTTPClient :=
  (settings.filterMap fun s =>
    match s with
    | Setting.baseURL _ => none
    | Setting.httpClient h => some h).getLast?

/-- A world in which every URL parses and the transport answers every request
with the same status code and body. -/
def cannedWorld (status : Int) (body : Body) : World :=
  { urlParses := fun _ => true,
    Do := fun _ _ => Except.ok { StatusCode := status, Body := body } }

/-- A world in which every URL parses and the transport fails. -/
def offlineWorld : World :=
  { urlParses := fun _ => true,
    Do := fun _ _ => Except.error (ascii "dial tcp: connection refused") }

/-- Storing members from a state that may already hold an error; `storeMembers`
is `storeFrom` started without one. -/
def storeFrom {α : Type} (step : α → GoString → JValue → α × Option JSONError)
    (st : α × Option JSONError) (members : List (GoString × JValue)) : α × Option JSONError :=
  members.foldl (fun st m => ((step st.1 m.1 m.2).1, keepFirst st.2 (step st.1 m.1 m.2).2)) st

/-- A member name selects the field `error` of `ErrorResponse`: it is `error`
up to the case of its letters. -/
def namesErrorField (key : GoString) : Prop := foldName key = ascii "ERROR"

instance (key : GoString) : Decidable (namesErrorField key) := by
  unfold namesErrorField
  infer_instance

/-- A JSON value a string field accepts: a string, or `null`. -/
def fitsString : JValue → Bool
  | JValue.str _ => true
  | JValue.null => true
  | _ => false

/-- A JSON value a bool field accepts: `true`, `false`, or `null`. -/
def fitsBool : JValue → Bool
  | JValue.bool _ => true
  | JValue.null => true
  | _ => false

/-- A JSON value a struct accepts: `null`, or an object in which every member
that selects a field has a value the field accepts.  Members that select no
field are not looked at, and no field has to be present. -/
def fitsStruct (names : List GoString) (field : Nat → JValue → Bool) : JValue → Bool
  | JValue.obj members =>
    members.all fun m =>
      match findField names m.1 with
      | some i => field i m.2
      | none => true
  | JValue.null => true
  | _ => false

/-- A JSON value the field `Errors` accepts: `null`, or an array of values a
`ValidationError` accepts. -/
def fitsErrors : JValue → Bool
  | JValue.arr items =>
    items.all (fitsStruct [ascii "field", ascii "error"] fun _ => fitsString)
  | JValue.null => true
  | _ => false

/-- The shape of a JSON value that can be stored into a `PingResponse`. -/
def PingResponse.fits : JValue → Bool :=
  fitsStruct [ascii "message"] fun _ => fitsString

/-- The shape of a JSON value that can be stored into a `FixJSONResponse`. -/
def FixJSONResponse.fits : JValue → Bool :=
  fitsStruct [ascii "fixed_json"] fun _ => fitsString

/-- The shape of a JSON value that can be stored into a `ValidateResponse`. -/
def ValidateResponse.fits : JValue → Bool :=
  fitsStruct [ascii "is_valid", ascii "errors"] fun i => if i = 0 then fitsBool else fitsErrors

/-- The JSON value that encodes a `PingResponse`. -/
def PingResponse.toJSON (v : PingResponse) : JValue :=
  JValue.obj [(ascii "message", JValue.str v.Message)]

/-- The JSON value that encodes a `FixJSONResponse`. -/
def FixJSONResponse.toJSON (v : FixJSONResponse) : JValue :=
  JValue.obj [(ascii "fixed_json", JValue.str v.FixedJSON)]

/-- The JSON value that encodes a `ValidationError`. -/
def ValidationError.toJSON (e : ValidationError) : JValue :=
  JValue.obj [(ascii "field", JValue.str e.Field), (ascii "error", JValue.str e.Error)]

/-- The JSON value that encodes a `[]ValidationError`: `null` for the nil
slice, else the array of its elements in their order. -/
def ErrorSlice.toJSON : ErrorSlice → JValue
  | ErrorSlice.nil => JValue.null
  | ErrorSlice.slice elems _ => JValue.arr (elems.map ValidationError.toJSON)

/-- The JSON value that encodes a `ValidateResponse`: the flag and its errors. -/
def ValidateResponse.toJSON (v : ValidateResponse) : JValue :=
  JValue.obj [(ascii "is_valid", JValue.bool v.IsValid), (ascii "errors", v.Errors.toJSON)]

/-- The code unit sequences `decodeRune` accepts past ASCII, with the rune each
stands for. -/
inductive RuneBytes : GoString → Nat → Prop where
  | two (b b1 : Nat) (h : 0xC2 ≤ b ∧ b < 0xE0) (h1 : 0x80 ≤ b1 ∧ b1 ≤ 0xBF) :
      RuneBytes [b, b1] ((b % 32) * 64 + b1 % 64)
  | three (b b1 b2 : Nat) (h : 0xE0 ≤ b ∧ b < 0xF0)
      (h1 : (acceptRange b).1 ≤ b1 ∧ b1 ≤ (acceptRange b).2) (h2 : 0x80 ≤ b2 ∧ b2 ≤ 0xBF) :
      RuneBytes [b, b1, b2] ((b % 16) * 4096 + (b1 % 64) * 64 + b2 % 64)
  | four (b b1 b2 b3 : Nat) (h : 0xF0 ≤ b ∧ b ≤ 0xF4)
      (h1 : (acceptRange b).1 ≤ b1 ∧ b1 ≤ (acceptRange b).2) (h2 : 0x80 ≤ b2 ∧ b2 ≤ 0xBF)
      (h3 : 0x80 ≤ b3 ∧ b3 ≤ 0xBF) :
      RuneBytes [b, b1, b2, b3]
        ((b % 8) * 262144 + (b1 % 64) * 4096 + (b2 % 64) * 64 + b3 % 64)

/-- The text `appendString` and the encoder write for one member of an object
whose value is a string: the name as it is, then the value as a string
literal. -/
def memberText (name value : GoString) : GoString :=
  0x22 :: name ++ 0x22 :: 0x3A :: 0x22 :: appendStringFrom 0 value ++ [0x22]

/-- A member name that `appendString` writes as it is. -/
def PlainName (name : GoString) : Prop :=
  appendStringFrom 0 name = name ∧ utf8Valid name = true

/-- The text `json.Marshal` writes for a `PingResponse`. -/
def PingResponse.encode (v : PingResponse) : GoString :=
  0x7B :: (memberText (ascii "message") v.Message ++ [0x7D])

/-- The text `json.Marshal` writes for a `FixJSONResponse`. -/
def FixJSONResponse.encode (v : FixJSONResponse) : GoString :=
  0x7B :: (memberText (ascii "fixed_json") v.FixedJSON ++ [0x7D])

/-- The text `json.Marshal` writes for a `ValidationError`. -/
def ValidationError.encode (e : ValidationError) : GoString :=
  0x7B :: (memberText (ascii "field") e.Field
    ++ 0x2C :: (memberText (ascii "error") e.Error ++ [0x7D]))

/-- The texts of the elements of an array, with a comma between two of them. -/
def encodeErrors : List ValidationError → GoString
  | [] => []
  | [e] => e.encode
  | e :: es => e.encode ++ 0x2C :: encodeErrors es

/-- The literal `true` or `false`. -/
def encodeBool (b : Bool) : GoString := if b then ascii "true" else ascii "false"

/-- The text `json.Marshal` writes for a `[]ValidationError`: `null` for the
nil slice, else the array of its elements. -/
def ErrorSlice.encode : ErrorSlice → GoString
  | ErrorSlice.nil => ascii "null"
  | ErrorSlice.slice elems _ => 0x5B :: (encodeErrors elems ++ [0x5D])

/-- The text `json.Marshal` writes for a `ValidateResponse`. -/
def ValidateResponse.encode (v : ValidateResponse) : GoString :=
  0x7B :: 0x22 :: (ascii "is_valid" ++ 0x22 :: 0x3A :: (encodeBool v.IsValid
    ++ 0x2C :: 0x22 :: (ascii "errors" ++ 0x22 :: 0x3A :: (v.Errors.encode ++ [0x7D]))))

/-- A parser of values returns less input than it was given. -/
def Consumes (pv : GoString → Option (JValue × GoString)) : Prop :=
  ∀ s v r, pv s = some (v, r) → r.length < s.length

/-! # Properties -/

/-! ## The pipeline -/

theorem newRequest_ok (w : World) (ctx : Option Context) (method url : GoString)
    (body : Option GoString) (req : Request)
    (h : newRequestWithContext w ctx method url body = Except.ok req) :
    ∃ cx, ctx = some cx ∧ w.urlParses url = true
      ∧ validMethod (if method = [] then ascii "GET" else method) = true
      ∧ req = { ctx := cx, Method := if method = [] then ascii "GET" else method,
                URL := url, Header := [], Body := body } := by
  unfold newRequestWithContext at h
  by_cases hm : validMethod (if method = [] then ascii "GET" else method) = true
  · rw [if_neg (by simpa using hm)] at h
    cases ctx with
    | none => cases h
    | some cx =>
      by_cases hu : w.urlParses url = true
      · simp only [hu, if_true] at h
        exact ⟨cx, rfl, hu, hm, by cases h; rfl⟩
      · simp only [hu] at h
        cases h
  · rw [if_pos hm] at h
    cases h

theorem newRequest_of_ok (w : World) (cx : Context) (method url : GoString)
    (body : Option GoString)
    (hm : validMethod (if method = [] then ascii "GET" else method) = true)
    (hu : w.urlParses url = true) :
    newRequestWithContext w (some cx) method url body =
      Except.ok { ctx := cx, Method := if method = [] then ascii "GET" else method,
                  URL := url, Header := [], Body := body } := by
  unfold newRequestWithContext
  rw [if_neg (by simpa using hm)]
  simp only [hu, if_true]

theorem jsonMarshal_ok (p : Payload) : ∃ b, jsonMarshal p = Except.ok b := by
  cases p <;> exact ⟨_, rfl⟩

theorem bodyBytes_isSome (body : Option Payload) : (bodyBytes body).isSome = body.isSome := by
  cases body with
  | none => rfl
  | some p => cases p <;> rfl

theorem doRequest_eq {α : Type} [Decodable α] (w : World) (c : Client) (ctx : Option Context)
    (method path : GoString) (body : Option Payload) (result : Option α) (requireAuth : Bool) :
    doRequest w c ctx method path body result requireAuth =
      match newRequestWithContext w ctx method (c.baseURL ++ path) (bodyBytes body) with
      | Except.error err =>
        { err := some (GoError.wrapped (ascii "failed to create request") (GoError.other err)),
          result := result, trace := [] }
      | Except.ok req0 =>
        match w.Do c.httpClient
            (expectedRequest c req0.ctx method path (bodyBytes body) requireAuth) with
        | Except.error err =>
          { err := some (GoError.wrapped (ascii "failed to execute request") (GoError.other err)),
            result := result,
            trace := [Event.send (expectedRequest c req0.ctx method path (bodyBytes body) requireAuth)] }
        | Except.ok resp =>
          { err := (handleResponse resp result).err,
            result := (handleResponse resp result).result,
            trace := Event.send (expectedRequest c req0.ctx method path (bodyBytes body) requireAuth)
              :: (handleResponse resp result).trace ++ [Event.closeBody] } := by
  have hbody : marshalBody body = Except.ok (bodyBytes body) := by
    cases body with
    | none => rfl
    | some p => cases p <;> rfl
  have key : ∀ req0 : Request,
      newRequestWithContext w ctx method (c.baseURL ++ path) (bodyBytes body) = Except.ok req0 →
      (if requireAuth = true ∧ c.apiKey ≠ [] then
          { (if body.isSome = true then
              { req0 with Header := req0.Header.set (ascii "Content-Type") (ascii "application/json") }
             else req0) with
            Header := (if body.isSome = true then
              { req0 with Header := req0.Header.set (ascii "Content-Type") (ascii "application/json") }
             else req0).Header.set (ascii "Authorization") (ascii "Bearer " ++ c.apiKey) }
        else
          (if body.isSome = true then
              { req0 with Header := req0.Header.set (ascii "Content-Type") (ascii "application/json") }
             else req0))
        = expectedRequest c req0.ctx method path (bodyBytes body) requireAuth := by
    intro req0 h0
    obtain ⟨cx, -, -, -, rfl⟩ := newRequest_ok _ _ _ _ _ _ h0
    have hne : ascii "Content-Type" ≠ ascii "Authorization" := by decide
    unfold expectedRequest
    rw [bodyBytes_isSome]
    by_cases hb : body.isSome = true <;> by_cases ha : requireAuth = true ∧ c.apiKey ≠ []
      <;> simp [hb, ha, Header.set, hne]
  unfold doRequest
  rw [hbody]
  simp only
  cases h0 : newRequestWithContext w ctx method (c.baseURL ++ path) (bodyBytes body) with
  | error e => rfl
  | ok req0 =>
    simp only
    rw [key req0 h0]

theorem handleResponse_trace_send {α : Type} [Decodable α] (resp : Response) (result : Option α)
    (req : Request) : Event.send req ∉ (handleResponse resp result).trace := by
  unfold handleResponse
  split
  · simp
  · split
    · split <;> simp
    · simp

theorem handleResponse_trace_close {α : Type} [Decodable α] (resp : Response)
    (result : Option α) : (handleResponse resp result).trace.count Event.closeBody = 0 := by
  unfold handleResponse
  split
  · rfl
  · split
    · split <;> rfl
    · rfl

theorem doRequest_sent {α : Type} [Decodable α] (w : World) (c : Client) (ctx : Option Context)
    (method path : GoString) (body : Option Payload) (result : Option α) (requireAuth : Bool)
    (req : Request)
    (h : Event.send req ∈ (doRequest w c ctx method path body result requireAuth).trace) :
    ∃ cx, ctx = some cx ∧ w.urlParses (c.baseURL ++ path) = true
      ∧ req = expectedRequest c cx method path (bodyBytes body) requireAuth := by
  rw [doRequest_eq] at h
  cases h0 : newRequestWithContext w ctx method (c.baseURL ++ path) (bodyBytes body) with
  | error e => rw [h0] at h; simp at h
  | ok req0 =>
    rw [h0] at h
    obtain ⟨cx, hctx, hu, -, hreq⟩ := newRequest_ok _ _ _ _ _ _ h0
    have hcx : req0.ctx = cx := by rw [hreq]
    refine ⟨cx, hctx, hu, ?_⟩
    simp only at h
    cases hdo : w.Do c.httpClient
        (expectedRequest c req0.ctx method path (bodyBytes body) requireAuth) with
    | error e =>
      rw [hdo] at h
      simp only [List.mem_singleton, Event.send.injEq] at h
      rw [h, hcx]
    | ok resp =>
      rw [hdo] at h
      simp only [List.cons_append, List.mem_cons, Event.send.injEq, List.mem_append,
        List.mem_singleton, reduceCtorEq, or_false] at h
      rcases h with h | h
      · rw [h, hcx]
      · rcases h with h | h
        · exact absurd h (handleResponse_trace_send resp result req)
        · simp at h

theorem doRequest_of_response {α : Type} [Decodable α] (w : World) (c : Client)
    (ctx : Option Context) (method path : GoString) (body : Option Payload) (result : Option α)
    (requireAuth : Bool) (req : Request) (resp : Response)
    (hsent : Event.send req ∈ (doRequest w c ctx method path body result requireAuth).trace)
    (hresp : w.Do c.httpClient req = Except.ok resp) :
    doRequest w c ctx method path body result requireAuth =
      { err := (handleResponse resp result).err,
        result := (handleResponse resp result).result,
        trace := Event.send req :: (handleResponse resp result).trace ++ [Event.closeBody] } := by
  obtain ⟨cx, hctx, hu, hreq⟩ := doRequest_sent w c ctx method path body result requireAuth req hsent
  rw [doRequest_eq]
  cases h0 : newRequestWithContext w ctx method (c.baseURL ++ path) (bodyBytes body) with
  | error e =>
    rw [doRequest_eq, h0] at hsent
    simp at hsent
  | ok req0 =>
    obtain ⟨cx1, hctx1, -, -, hreq0⟩ := newRequest_ok _ _ _ _ _ _ h0
    have hcx : req0.ctx = cx := by
      rw [hreq0]
      rw [hctx] at hctx1
      cases hctx1
      rfl
    simp only [hcx, ← hreq, hresp]

theorem doRequest_of_transport_error {α : Type} [Decodable α] (w : World) (c : Client)
    (ctx : Option Context) (method path : GoString) (body : Option Payload) (result : Option α)
    (requireAuth : Bool) (req : Request) (e : GoString)
    (hsent : Event.send req ∈ (doRequest w c ctx method path body result requireAuth).trace)
    (hresp : w.Do c.httpClient req = Except.error e) :
    doRequest w c ctx method path body result requireAuth =
      { err := some (GoError.wrapped (ascii "failed to execute request") (GoError.other e)),
        result := result, trace := [Event.send req] } := by
  obtain ⟨cx, hctx, hu, hreq⟩ := doRequest_sent w c ctx method path body result requireAuth req hsent
  rw [doRequest_eq]
  cases h0 : newRequestWithContext w ctx method (c.baseURL ++ path) (bodyBytes body) with
  | error e =>
    rw [doRequest_eq, h0] at hsent
    simp at hsent
  | ok req0 =>
    obtain ⟨cx1, hctx1, -, -, hreq0⟩ := newRequest_ok _ _ _ _ _ _ h0
    have hcx : req0.ctx = cx := by
      rw [hreq0]
      rw [hctx] at hctx1
      cases hctx1
      rfl
    simp only [hcx, ← hreq, hresp]

theorem doRequest_sends {α : Type} [Decodable α] (w : World) (c : Client) (cx : Context)
    (method path : GoString) (body : Option Payload) (result : Option α) (requireAuth : Bool)
    (hm : validMethod (if method = [] then ascii "GET" else method) = true)
    (hu : w.urlParses (c.baseURL ++ path) = true) :
    Event.send (expectedRequest c cx method path (bodyBytes body) requireAuth)
      ∈ (doRequest w c (some cx) method path body result requireAuth).trace := by
  rw [doRequest_eq, newRequest_of_ok w cx method _ _ hm hu]
  simp only
  cases w.Do c.httpClient (expectedRequest c cx method path (bodyBytes body) requireAuth) <;> simp

theorem doRequest_not_built {α : Type} [Decodable α] (w : World) (c : Client)
    (ctx : Option Context) (method path : GoString) (body : Option Payload) (result : Option α)
    (requireAuth : Bool)
    (h : ∀ req, Event.send req ∉ (doRequest w c ctx method path body result requireAuth).trace) :
    (doRequest w c ctx method path body result requireAuth).trace = [] := by
  rw [doRequest_eq] at h ⊢
  cases h0 : newRequestWithContext w ctx method (c.baseURL ++ path) (bodyBytes body) with
  | error e => rfl
  | ok req0 =>
    rw [h0] at h
    simp only at h
    exfalso
    apply h (expectedRequest c req0.ctx method path (bodyBytes body) requireAuth)
    cases w.Do c.httpClient (expectedRequest c req0.ctx method path (bodyBytes body) requireAuth)
      <;> simp

theorem parseErrorResponse_api (resp : Response) :
    ∃ m, parseErrorResponse resp =
      GoError.api { StatusCode := resp.StatusCode, Message := m, Response := resp } := by
  unfold parseErrorResponse
  split
  · exact ⟨_, rfl⟩
  · split <;> exact ⟨_, rfl⟩

theorem handleResponse_failure {α : Type} [Decodable α] (resp : Response) (result : Option α)
    (h : resp.StatusCode < 200 ∨ resp.StatusCode ≥ 300) :
    handleResponse resp result =
      { err := some (parseErrorResponse resp), result := result, trace := [Event.readBody] } := by
  unfold handleResponse
  rw [if_pos h]

theorem handleResponse_success_err {α : Type} [Decodable α] (resp : Response)
    (result : Option α) (h : 200 ≤ resp.StatusCode ∧ resp.StatusCode < 300) (e : GoError)
    (he : (handleResponse resp result).err = some e) :
    ∃ result0 je, result = some result0 ∧ (jsonDecode resp.Body result0).2 = some je
      ∧ e = GoError.wrapped (ascii "failed to decode response") (GoError.json je) := by
  unfold handleResponse at he
  rw [if_neg (by omega)] at he
  split at he
  · rename_i dest
    split at he
    · rename_i je hje
      refine ⟨dest, je, rfl, hje, ?_⟩
      simp only [Option.some.injEq] at he
      exact he.symm
    · simp at he
  · simp at he

theorem Ping_eq (w : World) (c : Client) (ctx : Option Context) :
    (Ping w c ctx).trace = (doRequest w c ctx (ascii "GET") (ascii "/ping") none
        (some ({ Message := [] } : PingResponse)) false).trace
    ∧ (Ping w c ctx).err = (doRequest w c ctx (ascii "GET") (ascii "/ping") none
        (some ({ Message := [] } : PingResponse)) false).err
    ∧ ((Ping w c ctx).err ≠ none → (Ping w c ctx).value = none)
    ∧ ((Ping w c ctx).err = none → (Ping w c ctx).value = (doRequest w c ctx (ascii "GET")
        (ascii "/ping") none (some ({ Message := [] } : PingResponse)) false).result) := by
  unfold Ping
  simp only
  split <;> simp_all

theorem ValidateJSON_eq (w : World) (c : Client) (ctx : Option Context)
    (openAPISpec jsonString operationID : GoString) :
    (ValidateJSON w c ctx openAPISpec jsonString operationID).trace
      = (doRequest w c ctx (ascii "POST") (ascii "/validator/validate")
          (some (Payload.validate { OpenAPISpec := openAPISpec, JSONString := jsonString,
                                    OperationID := operationID }))
          (some ({ IsValid := false, Errors := ErrorSlice.nil } : ValidateResponse))
          true).trace
    ∧ (ValidateJSON w c ctx openAPISpec jsonString operationID).err
      = (doRequest w c ctx (ascii "POST") (ascii "/validator/validate")
          (some (Payload.validate { OpenAPISpec := openAPISpec, JSONString := jsonString,
                                    OperationID := operationID }))
          (some ({ IsValid := false, Errors := ErrorSlice.nil } : ValidateResponse))
          true).err
    ∧ ((ValidateJSON w c ctx openAPISpec jsonString operationID).err ≠ none →
        (ValidateJSON w c ctx openAPISpec jsonString operationID).value = none)
    ∧ ((ValidateJSON w c ctx openAPISpec jsonString operationID).err = none →
        (ValidateJSON w c ctx openAPISpec jsonString operationID).value
          = (doRequest w c ctx (ascii "POST") (ascii "/validator/validate")
              (some (Payload.validate { OpenAPISpec := openAPISpec, JSONString := jsonString,
                                        OperationID := operationID }))
              (some ({ IsValid := false, Errors := ErrorSlice.nil } :
                ValidateResponse)) true).result) := by
  unfold ValidateJSON
  simp only
  split <;> simp_all

theorem FixJSON_eq (w : World) (c : Client) (ctx : Option Context) (jsonToFix : GoString) :
    (FixJSON w c ctx jsonToFix).trace
      = (doRequest w c ctx (ascii "POST") (ascii "/repair/fix-json")
          (some (Payload.fixJSON { JSONToFix := jsonToFix }))
          (some ({ FixedJSON := [] } : FixJSONResponse)) true).trace
    ∧ (FixJSON w c ctx jsonToFix).err
      = (doRequest w c ctx (ascii "POST") (ascii "/repair/fix-json")
          (some (Payload.fixJSON { JSONToFix := jsonToFix }))
          (some ({ FixedJSON := [] } : FixJSONResponse)) true).err
    ∧ ((FixJSON w c ctx jsonToFix).err ≠ none → (FixJSON w c ctx jsonToFix).value = none)
    ∧ ((FixJSON w c ctx jsonToFix).err = none →
        (FixJSON w c ctx jsonToFix).value
          = (doRequest w c ctx (ascii "POST") (ascii "/repair/fix-json")
              (some (Payload.fixJSON { JSONToFix := jsonToFix }))
              (some ({ FixedJSON := [] } : FixJSONResponse)) true).result) := by
  unfold FixJSON
  simp only
  split <;> simp_all

theorem doRequest_status {α : Type} [Decodable α] (w : World) (c : Client)
    (ctx : Option Context) (method path : GoString) (body : Option Payload) (result : Option α)
    (requireAuth : Bool) (req : Request) (resp : Response)
    (hsent : Event.send req ∈ (doRequest w c ctx method path body result requireAuth).trace)
    (hresp : w.Do c.httpClient req = Except.ok resp) :
    ((resp.StatusCode < 200 ∨ resp.StatusCode ≥ 300) →
      ∃ e : APIError,
        (doRequest w c ctx method path body result requireAuth).err = some (GoError.api e)
        ∧ e.StatusCode = resp.StatusCode
        ∧ (doRequest w c ctx method path body result requireAuth).result = result)
    ∧ ((200 ≤ resp.StatusCode ∧ resp.StatusCode < 300) →
      ∀ e, (doRequest w c ctx method path body result requireAuth).err = some e →
        e.asAPIError = none ∧ e.hasAPIError = false) := by
  rw [doRequest_of_response w c ctx method path body result requireAuth req resp hsent hresp]
  constructor
  · intro h
    rw [handleResponse_failure resp result h]
    obtain ⟨m, hm⟩ := parseErrorResponse_api resp
    exact ⟨_, by rw [hm], rfl, rfl⟩
  · intro h e he
    obtain ⟨_, je, -, -, rfl⟩ := handleResponse_success_err resp result h e he
    exact ⟨rfl, rfl⟩

/-- C1: whenever the transport returns a response with status code `s`, a
status outside [200,300) makes `doRequest` (and so `Ping`, `ValidateJSON` and
`FixJSON`) return an error that is directly a `*APIError` with `StatusCode = s`,
whatever the body is and also when it cannot be read, and leaves the result
destination as it was (the operations return a nil result); a status inside
[200,300) never gives an error that is or wraps a `*APIError`. -/
theorem status_code_decides_api_error {α : Type} [Decodable α] (w : World) (c : Client)
    (ctx : Option Context) :
    (∀ (method path : GoString) (body : Option Payload) (result : Option α)
        (requireAuth : Bool) (req : Request) (resp : Response),
      Event.send req ∈ (doRequest w c ctx method path body result requireAuth).trace →
      w.Do c.httpClient req = Except.ok resp →
      ((resp.StatusCode < 200 ∨ resp.StatusCode ≥ 300) →
        ∃ e : APIError,
          (doRequest w c ctx method path body result requireAuth).err = some (GoError.api e)
          ∧ (GoError.api e).asAPIError = some e
          ∧ e.StatusCode = resp.StatusCode
          ∧ (doRequest w c ctx method path body result requireAuth).result = result)
      ∧ ((200 ≤ resp.StatusCode ∧ resp.StatusCode < 300) →
        ∀ e, (doRequest w c ctx method path body result requireAuth).err = some e →
          e.asAPIError = none ∧ e.hasAPIError = false))
    ∧ (∀ (req : Request) (resp : Response),
      Event.send req ∈ (Ping w c ctx).trace → w.Do c.httpClient req = Except.ok resp →
      ((resp.StatusCode < 200 ∨ resp.StatusCode ≥ 300) →
        ∃ e : APIError, (Ping w c ctx).err = some (GoError.api e)
          ∧ e.StatusCode = resp.StatusCode ∧ (Ping w c ctx).value = none)
      ∧ ((200 ≤ resp.StatusCode ∧ resp.StatusCode < 300) →
        ∀ e, (Ping w c ctx).err = some e → e.asAPIError = none ∧ e.hasAPIError = false))
    ∧ (∀ (openAPISpec jsonString operationID : GoString) (req : Request) (resp : Response),
      Event.send req ∈ (ValidateJSON w c ctx openAPISpec jsonString operationID).trace →
      w.Do c.httpClient req = Except.ok resp →
      ((resp.StatusCode < 200 ∨ resp.StatusCode ≥ 300) →
        ∃ e : APIError,
          (ValidateJSON w c ctx openAPISpec jsonString operationID).err = some (GoError.api e)
          ∧ e.StatusCode = resp.StatusCode
          ∧ (ValidateJSON w c ctx openAPISpec jsonString operationID).value = none)
      ∧ ((200 ≤ resp.StatusCode ∧ resp.StatusCode < 300) →
        ∀ e, (ValidateJSON w c ctx openAPISpec jsonString operationID).err = some e →
          e.asAPIError = none ∧ e.hasAPIError = false))
    ∧ (∀ (jsonToFix : GoString) (req : Request) (resp : Response),
      Event.send req ∈ (FixJSON w c ctx jsonToFix).trace →
      w.Do c.httpClient req = Except.ok resp →
      ((resp.StatusCode < 200 ∨ resp.StatusCode ≥ 300) →
        ∃ e : APIError, (FixJSON w c ctx jsonToFix).err = some (GoError.api e)
          ∧ e.StatusCode = resp.StatusCode ∧ (FixJSON w c ctx jsonToFix).value = none)
      ∧ ((200 ≤ resp.StatusCode ∧ resp.StatusCode < 300) →
        ∀ e, (FixJSON w c ctx jsonToFix).err = some e →
          e.asAPIError = none ∧ e.hasAPIError = false)) := by
  refine ⟨?_, ?_, ?_, ?_⟩
  · intro method path body result requireAuth req resp hsent hresp
    obtain ⟨h1, h2⟩ := doRequest_status w c ctx method path body result requireAuth req resp
      hsent hresp
    refine ⟨fun h => ?_, h2⟩
    obtain ⟨e, he, hs, hr⟩ := h1 h
    exact ⟨e, he, rfl, hs, hr⟩
  · intro req resp hsent hresp
    obtain ⟨ht, he, hv, -⟩ := Ping_eq w c ctx
    rw [ht] at hsent
    obtain ⟨h1, h2⟩ := doRequest_status w c ctx _ _ _ _ _ req resp hsent hresp
    rw [← he] at h1 h2
    refine ⟨fun h => ?_, h2⟩
    obtain ⟨e, hee, hs, -⟩ := h1 h
    exact ⟨e, hee, hs, hv (by rw [hee]; simp)⟩
  · intro s d o req resp hsent hresp
    obtain ⟨ht, he, hv, -⟩ := ValidateJSON_eq w c ctx s d o
    rw [ht] at hsent
    obtain ⟨h1, h2⟩ := doRequest_status w c ctx _ _ _ _ _ req resp hsent hresp
    rw [← he] at h1 h2
    refine ⟨fun h => ?_, h2⟩
    obtain ⟨e, hee, hs, -⟩ := h1 h
    exact ⟨e, hee, hs, hv (by rw [hee]; simp)⟩
  · intro s req resp hsent hresp
    obtain ⟨ht, he, hv, -⟩ := FixJSON_eq w c ctx s
    rw [ht] at hsent
    obtain ⟨h1, h2⟩ := doRequest_status w c ctx _ _ _ _ _ req resp hsent hresp
    rw [← he] at h1 h2
    refine ⟨fun h => ?_, h2⟩
    obtain ⟨e, hee, hs, -⟩ := h1 h
    exact ⟨e, hee, hs, hv (by rw [hee]; simp)⟩

theorem status_code_decides_api_error_witness :
    (∃ e : APIError,
      (Ping (cannedWorld 503 { data := ascii "busy", readErr := some (ascii "unexpected EOF") })
        (NewClient (ascii "lg-m-key") []) (some { id := 0 })).err = some (GoError.api e)
      ∧ e.StatusCode = 503
      ∧ (Ping (cannedWorld 503 { data := ascii "busy", readErr := some (ascii "unexpected EOF") })
        (NewClient (ascii "lg-m-key") []) (some { id := 0 })).value = none)
    ∧ (∀ e, (Ping (cannedWorld 204 { data := [], readErr := none })
        (NewClient (ascii "lg-m-key") []) (some { id := 0 })).err = some e →
          e.asAPIError = none ∧ e.hasAPIError = false) :=
  ⟨((status_code_decides_api_error (α := PingResponse)
      (cannedWorld 503 { data := ascii "busy", readErr := some (ascii "unexpected EOF") })
      (NewClient (ascii "lg-m-key") []) (some { id := 0 })).2.1
      (expectedRequest (NewClient (ascii "lg-m-key") []) { id := 0 } (ascii "GET") (ascii "/ping")
        none false)
      { StatusCode := 503, Body := { data := ascii "busy", readErr := some (ascii "unexpected EOF") } }
      (by decide) rfl).1 (by decide),
   ((status_code_decides_api_error (α := PingResponse)
      (cannedWorld 204 { data := [], readErr := none })
      (NewClient (ascii "lg-m-key") []) (some { id := 0 })).2.1
      (expectedRequest (NewClient (ascii "lg-m-key") []) { id := 0 } (ascii "GET") (ascii "/ping")
        none false)
      { StatusCode := 204, Body := { data := [], readErr := none } }
      (by decide) rfl).2 (by decide)⟩

theorem expectedRequest_authorization (c : Client) (cx : Context) (method path : GoString)
    (body : Option GoString) (requireAuth : Bool) :
    (expectedRequest c cx method path body requireAuth).Header.get (ascii "Authorization")
      = if requireAuth = true ∧ c.apiKey ≠ [] then some (ascii "Bearer " ++ c.apiKey) else none := by
  have hne : ascii "Content-Type" ≠ ascii "Authorization" := by decide
  unfold expectedRequest Header.get
  by_cases hb : body.isSome = true <;> by_cases ha : requireAuth = true ∧ c.apiKey ≠ []
    <;> simp [hb, ha, hne, List.find?]

/-- C5: the request `doRequest` hands to the transport carries an
`Authorization` header exactly when `requireAuth` is true and the credential
is not empty, and its value is then "Bearer " followed by the credential; so
`Ping` never carries it, and `ValidateJSON` and `FixJSON` on a client with an
empty credential still hand their request to the transport, without it. -/
theorem authorization_header_iff_required_and_configured {α : Type} [Decodable α] (w : World)
    (c : Client) (ctx : Option Context) :
    (∀ (method path : GoString) (body : Option Payload) (result : Option α)
        (requireAuth : Bool) (req : Request),
      Event.send req ∈ (doRequest w c ctx method path body result requireAuth).trace →
      req.Header.get (ascii "Authorization")
        = if requireAuth = true ∧ c.apiKey ≠ [] then some (ascii "Bearer " ++ c.apiKey) else none)
    ∧ (∀ req, Event.send req ∈ (Ping w c ctx).trace →
        req.Header.get (ascii "Authorization") = none)
    ∧ (∀ (openAPISpec jsonString operationID : GoString) (req : Request),
      Event.send req ∈ (ValidateJSON w c ctx openAPISpec jsonString operationID).trace →
      req.Header.get (ascii "Authorization")
        = if c.apiKey ≠ [] then some (ascii "Bearer " ++ c.apiKey) else none)
    ∧ (∀ (jsonToFix : GoString) (req : Request),
      Event.send req ∈ (FixJSON w c ctx jsonToFix).trace →
      req.Header.get (ascii "Authorization")
        = if c.apiKey ≠ [] then some (ascii "Bearer " ++ c.apiKey) else none)
    ∧ (c.apiKey = [] → ctx ≠ none →
        (w.urlParses (c.baseURL ++ ascii "/validator/validate") = true →
          ∀ openAPISpec jsonString operationID : GoString,
            ∃ req, Event.send req ∈ (ValidateJSON w c ctx openAPISpec jsonString operationID).trace
              ∧ req.Header.get (ascii "Authorization") = none)
        ∧ (w.urlParses (c.baseURL ++ ascii "/repair/fix-json") = true →
          ∀ jsonToFix : GoString,
            ∃ req, Event.send req ∈ (FixJSON w c ctx jsonToFix).trace
              ∧ req.Header.get (ascii "Authorization") = none)) := by
  have main : ∀ {β : Type} [Decodable β] (method path : GoString) (body : Option Payload)
      (result : Option β) (requireAuth : Bool) (req : Request),
      Event.send req ∈ (doRequest w c ctx method path body result requireAuth).trace →
      req.Header.get (ascii "Authorization")
        = if requireAuth = true ∧ c.apiKey ≠ [] then some (ascii "Bearer " ++ c.apiKey)
          else none := by
    intro β _ method path body result requireAuth req hsent
    obtain ⟨cx, -, -, rfl⟩ := doRequest_sent w c ctx method path body result requireAuth req hsent
    exact expectedRequest_authorization c cx method path _ requireAuth
  refine ⟨fun method path body result requireAuth req h => main method path body result
    requireAuth req h, ?_, ?_, ?_, ?_⟩
  · intro req hsent
    rw [(Ping_eq w c ctx).1] at hsent
    simpa using main _ _ _ _ _ req hsent
  · intro s d o req hsent
    rw [(ValidateJSON_eq w c ctx s d o).1] at hsent
    simpa using main _ _ _ _ _ req hsent
  · intro s req hsent
    rw [(FixJSON_eq w c ctx s).1] at hsent
    simpa using main _ _ _ _ _ req hsent
  · intro hkey hctx
    obtain ⟨cx, rfl⟩ := Option.ne_none_iff_exists'.mp hctx
    constructor
    · intro hu s d o
      refine ⟨expectedRequest c cx (ascii "POST") (ascii "/validator/validate")
        (bodyBytes (some (Payload.validate { OpenAPISpec := s, JSONString := d,
                                             OperationID := o }))) true, ?_, ?_⟩
      · rw [(ValidateJSON_eq w c (some cx) s d o).1]
        exact doRequest_sends w c cx _ _ _ _ _ (by decide) hu
      · rw [expectedRequest_authorization]
        simp [hkey]
    · intro hu s
      refine ⟨expectedRequest c cx (ascii "POST") (ascii "/repair/fix-json")
        (bodyBytes (some (Payload.fixJSON { JSONToFix := s }))) true, ?_, ?_⟩
      · rw [(FixJSON_eq w c (some cx) s).1]
        exact doRequest_sends w c cx _ _ _ _ _ (by decide) hu
      · rw [expectedRequest_authorization]
        simp [hkey]

theorem authorization_header_iff_required_and_configured_witness :
    (∃ req, Event.send req ∈ (FixJSON (cannedWorld 401 { data := [], readErr := none })
        (NewClient [] []) (some { id := 0 }) (ascii "[1,")).trace
      ∧ req.Header.get (ascii "Authorization") = none)
    ∧ (expectedRequest (NewClient (ascii "lg-m-key") []) { id := 0 } (ascii "POST")
        (ascii "/repair/fix-json") (bodyBytes (some (Payload.fixJSON { JSONToFix := ascii "[1," })))
        true).Header.get (ascii "Authorization") = some (ascii "Bearer lg-m-key") :=
  ⟨((authorization_header_iff_required_and_configured (α := FixJSONResponse)
      (cannedWorld 401 { data := [], readErr := none }) (NewClient [] []) (some { id := 0 })).2.2.2.2
      rfl (by decide)).2 rfl (ascii "[1,"),
   by
    have h := (authorization_header_iff_required_and_configured (α := FixJSONResponse)
      (cannedWorld 401 { data := [], readErr := none }) (NewClient (ascii "lg-m-key") [])
      (some { id := 0 })).1 (ascii "POST") (ascii "/repair/fix-json")
      (some (Payload.fixJSON { JSONToFix := ascii "[1," })) (some { FixedJSON := [] }) true
      (expectedRequest (NewClient (ascii "lg-m-key") []) { id := 0 } (ascii "POST")
        (ascii "/repair/fix-json") (bodyBytes (some (Payload.fixJSON { JSONToFix := ascii "[1," })))
        true) (by decide)
    rw [h]
    decide⟩

/-- C10: when the transport returns a response, `doRequest` closes its body
exactly once, as the last thing it does, whatever the status code and the
body are (status failure, decode failure, success); when the transport
returns an error or the request cannot be built, no body is closed. -/
theorem response_body_closed_exactly_once {α : Type} [Decodable α] (w : World) (c : Client)
    (ctx : Option Context) (method path : GoString) (body : Option Payload) (result : Option α)
    (requireAuth : Bool) :
    (∀ req resp,
      Event.send req ∈ (doRequest w c ctx method path body result requireAuth).trace →
      w.Do c.httpClient req = Except.ok resp →
      (doRequest w c ctx method path body result requireAuth).trace.count Event.closeBody = 1
      ∧ (doRequest w c ctx method path body result requireAuth).trace.getLast?
          = some Event.closeBody)
    ∧ (∀ req e,
      Event.send req ∈ (doRequest w c ctx method path body result requireAuth).trace →
      w.Do c.httpClient req = Except.error e →
      (doRequest w c ctx method path body result requireAuth).trace.count Event.closeBody = 0)
    ∧ ((∀ req, Event.send req ∉ (doRequest w c ctx method path body result requireAuth).trace) →
      (doRequest w c ctx method path body result requireAuth).trace.count Event.closeBody = 0) := by
  refine ⟨?_, ?_, ?_⟩
  · intro req resp hsent hresp
    rw [doRequest_of_response w c ctx method path body result requireAuth req resp hsent hresp]
    constructor
    · simp only [List.cons_append, List.count_cons, List.count_append,
        handleResponse_trace_close, List.count_nil]
      simp
    · show (_ ++ [Event.closeBody]).getLast? = some Event.closeBody
      rw [List.getLast?_append]
      rfl
  · intro req e hsent hresp
    rw [doRequest_of_transport_error w c ctx method path body result requireAuth req e hsent hresp]
    simp
  · intro h
    rw [doRequest_not_built w c ctx method path body result requireAuth h]
    rfl

theorem response_body_closed_exactly_once_witness :
    ((doRequest (cannedWorld 500 { data := ascii "oops", readErr := none })
        (NewClient (ascii "lg-m-key") []) (some { id := 0 }) (ascii "GET") (ascii "/ping") none
        (some ({ Message := [] } : PingResponse)) false).trace.count Event.closeBody = 1
      ∧ (doRequest (cannedWorld 500 { data := ascii "oops", readErr := none })
        (NewClient (ascii "lg-m-key") []) (some { id := 0 }) (ascii "GET") (ascii "/ping") none
        (some ({ Message := [] } : PingResponse)) false).trace.getLast? = some Event.closeBody)
    ∧ ((doRequest (cannedWorld 200 { data := ascii "oops", readErr := none })
        (NewClient (ascii "lg-m-key") []) (some { id := 0 }) (ascii "GET") (ascii "/ping") none
        (some ({ Message := [] } : PingResponse)) false).trace.count Event.closeBody = 1
      ∧ (doRequest (cannedWorld 200 { data := ascii "oops", readErr := none })
        (NewClient (ascii "lg-m-key") []) (some { id := 0 }) (ascii "GET") (ascii "/ping") none
        (some ({ Message := [] } : PingResponse)) false).trace.getLast? = some Event.closeBody)
    ∧ (doRequest offlineWorld (NewClient (ascii "lg-m-key") []) (some { id := 0 }) (ascii "GET")
        (ascii "/ping") none (some ({ Message := [] } : PingResponse)) false).trace.count
          Event.closeBody = 0
    ∧ (doRequest offlineWorld (NewClient (ascii "lg-m-key") []) none (ascii "GET")
        (ascii "/ping") none (some ({ Message := [] } : PingResponse)) false).trace.count
          Event.closeBody = 0 :=
  ⟨(response_body_closed_exactly_once (cannedWorld 500 { data := ascii "oops", readErr := none })
      (NewClient (ascii "lg-m-key") []) (some { id := 0 }) (ascii "GET") (ascii "/ping") none
      (some ({ Message := [] } : PingResponse)) false).1
      (expectedRequest (NewClient (ascii "lg-m-key") []) { id := 0 } (ascii "GET") (ascii "/ping")
        none false)
      { StatusCode := 500, Body := { data := ascii "oops", readErr := none } } (by decide) rfl,
   (response_body_closed_exactly_once (cannedWorld 200 { data := ascii "oops", readErr := none })
      (NewClient (ascii "lg-m-key") []) (some { id := 0 }) (ascii "GET") (ascii "/ping") none
      (some ({ Message := [] } : PingResponse)) false).1
      (expectedRequest (NewClient (ascii "lg-m-key") []) { id := 0 } (ascii "GET") (ascii "/ping")
        none false)
      { StatusCode := 200, Body := { data := ascii "oops", readErr := none } } (by decide) rfl,
   (response_body_closed_exactly_once offlineWorld
      (NewClient (ascii "lg-m-key") []) (some { id := 0 }) (ascii "GET") (ascii "/ping") none
      (some ({ Message := [] } : PingResponse)) false).2.1
      (expectedRequest (NewClient (ascii "lg-m-key") []) { id := 0 } (ascii "GET") (ascii "/ping")
        none false)
      (ascii "dial tcp: connection refused") (by decide) rfl,
   (response_body_closed_exactly_once offlineWorld
      (NewClient (ascii "lg-m-key") []) none (ascii "GET") (ascii "/ping") none
      (some ({ Message := [] } : PingResponse)) false).2.2
      (fun req h => absurd h (by
        have ht : (doRequest offlineWorld (NewClient (ascii "lg-m-key") []) none (ascii "GET")
            (ascii "/ping") none (some ({ Message := [] } : PingResponse)) false).trace = [] := by
          decide
        rw [ht]
        simp))⟩

theorem foldl_settings (settings : List Setting) (c0 : Client) :
    (settings.map Setting.toOption).foldl (fun client opt => opt client) c0 =
      { baseURL := (lastBaseURL settings).getD c0.baseURL,
        httpClient := (lastHTTPClient settings).getD c0.httpClient,
        apiKey := c0.apiKey } := by
  induction settings using List.reverseRecOn with
  | nil => rfl
  | append_singleton l s ih =>
    rw [List.map_append, List.foldl_append, ih]
    cases s <;>
      simp [Setting.toOption, WithBaseURL, WithHTTPClient, lastBaseURL, lastHTTPClient,
        List.filterMap_append]

/-- C9: for every credential string and every list of options built from
`WithBaseURL` and `WithHTTPClient`, `NewClient` returns a client whose
credential is the string given, whose base URL is the argument of the last
`WithBaseURL` (or "https://api.laddergrid.com" when there is none) and whose
HTTP client is the argument of the last `WithHTTPClient` (or a client with the
default transport and a timeout of 30 seconds when there is none). -/
theorem NewClient_fields (apiKey : GoString) (settings : List Setting) :
    (NewClient apiKey (settings.map Setting.toOption)).apiKey = apiKey
    ∧ (NewClient apiKey (settings.map Setting.toOption)).baseURL
        = (lastBaseURL settings).getD (ascii "https://api.laddergrid.com")
    ∧ (NewClient apiKey (settings.map Setting.toOption)).httpClient
        = (lastHTTPClient settings).getD { Transport := none, Timeout := 30 * 1000000000 } := by
  unfold NewClient
  rw [foldl_settings]
  exact ⟨rfl, rfl, rfl⟩

/-! ## Storing JSON values -/

theorem findField_single (name key : GoString) :
    findField [name] key = if foldName name = foldName key then some 0 else none := by
  unfold findField
  by_cases h : name = key
  · subst h
    simp [List.findIdx?_cons]
  · by_cases h2 : foldName name = foldName key <;> simp [List.findIdx?_cons, h, h2]

theorem storeMembers_nil {α : Type} (step : α → GoString → JValue → α × Option JSONError)
    (cur : α) : storeMembers step cur [] = (cur, none) := rfl

theorem storeMembers_eq {α : Type} (step : α → GoString → JValue → α × Option JSONError)
    (cur : α) (ms : List (GoString × JValue)) :
    storeMembers step cur ms = storeFrom step (cur, none) ms := rfl

theorem storeFrom_append {α : Type} (step : α → GoString → JValue → α × Option JSONError)
    (st : α × Option JSONError) (xs ys : List (GoString × JValue)) :
    storeFrom step st (xs ++ ys) = storeFrom step (storeFrom step st xs) ys := by
  unfold storeFrom
  rw [List.foldl_append]

theorem storeFrom_cons {α : Type} (step : α → GoString → JValue → α × Option JSONError)
    (st : α × Option JSONError) (m : GoString × JValue) (ms : List (GoString × JValue)) :
    storeFrom step st (m :: ms)
      = storeFrom step ((step st.1 m.1 m.2).1, keepFirst st.2 (step st.1 m.1 m.2).2) ms := rfl

theorem storeFrom_unchanged {α : Type} (step : α → GoString → JValue → α × Option JSONError)
    (st : α × Option JSONError) (ms : List (GoString × JValue))
    (h : ∀ m ∈ ms, ∀ cur, step cur m.1 m.2 = (cur, none)) :
    storeFrom step st ms = st := by
  induction ms generalizing st with
  | nil => rfl
  | cons m ms ih =>
    rw [storeFrom_cons, h m (List.mem_cons_self _ _) st.1]
    have : keepFirst st.2 none = st.2 := by cases st.2 <;> rfl
    simp only [this]
    exact ih _ (fun m' hm' => h m' (List.mem_cons_of_mem _ hm'))

theorem storeFrom_no_error {α : Type} (step : α → GoString → JValue → α × Option JSONError)
    (cur : α) (ms : List (GoString × JValue))
    (h : ∀ m ∈ ms, ∀ cur, (step cur m.1 m.2).2 = none) :
    (storeFrom step (cur, none) ms).2 = none := by
  induction ms generalizing cur with
  | nil => rfl
  | cons m ms ih =>
    rw [storeFrom_cons, h m (List.mem_cons_self _ _) cur]
    exact ih _ (fun m' hm' => h m' (List.mem_cons_of_mem _ hm'))

theorem findField_error (key : GoString) :
    findField [ascii "error"] key = if namesErrorField key then some 0 else none := by
  rw [findField_single]
  have : foldName (ascii "error") = ascii "ERROR" := by decide
  rw [this]
  unfold namesErrorField
  by_cases h : foldName key = ascii "ERROR"
  · rw [if_pos h.symm, if_pos h]
  · rw [if_neg (fun h2 => h h2.symm), if_neg h]

theorem errorResponse_member_other (cur : ErrorResponse) (key : GoString) (v : JValue)
    (h : ¬ namesErrorField key) : ErrorResponse.member cur key v = (cur, none) := by
  unfold ErrorResponse.member
  rw [findField_error, if_neg h]

theorem errorResponse_member_string (cur : ErrorResponse) (key : GoString) (s : GoString)
    (h : namesErrorField key) :
    ErrorResponse.member cur key (JValue.str s) = ({ Error := s }, none) := by
  unfold ErrorResponse.member
  rw [findField_error, if_pos h]
  rfl

theorem errorResponse_member_fits (cur : ErrorResponse) (key : GoString) (v : JValue)
    (h : fitsString v = true) : (ErrorResponse.member cur key v).2 = none := by
  unfold ErrorResponse.member
  split
  · cases v <;> simp_all [storeString, fitsString]
  · rfl

theorem parseErrorResponse_readable (resp : Response) (h : resp.Body.readErr = none) :
    parseErrorResponse resp =
      match (jsonUnmarshal resp.Body.data ({ Error := [] } : ErrorResponse)).2 with
      | some _ =>
        GoError.api { StatusCode := resp.StatusCode, Message := resp.Body.data, Response := resp }
      | none =>
        GoError.api
          { StatusCode := resp.StatusCode,
            Message := (jsonUnmarshal resp.Body.data ({ Error := [] } : ErrorResponse)).1.Error,
            Response := resp } := by
  unfold parseErrorResponse readAll
  rw [h]

theorem jsonValid_false (data : GoString) (h : jsonValid data = false) :
    parseDocument data = none := by
  unfold jsonValid at h
  cases hp : parseDocument data with
  | none => rfl
  | some v => rw [hp] at h; cases h

theorem jsonUnmarshal_invalid {α : Type} [Decodable α] (data : GoString) (dest : α)
    (h : parseDocument data = none) : jsonUnmarshal data dest = (dest, some JSONError.noValue) := by
  unfold jsonUnmarshal
  rw [h]

theorem jsonUnmarshal_valid {α : Type} [Decodable α] (data : GoString) (dest : α) (v : JValue)
    (h : parseDocument data = some v) : jsonUnmarshal data dest = Decodable.store dest v := by
  unfold jsonUnmarshal
  rw [h]

/-- C3: for a response whose body is read without error and is not valid
JSON, `parseErrorResponse` returns an `APIError` whose `Message` is the body,
byte for byte; the empty body gives the empty message. -/
theorem message_is_raw_body_when_not_json (resp : Response)
    (hread : resp.Body.readErr = none) :
    (jsonValid resp.Body.data = false →
      parseErrorResponse resp = GoError.api
        { StatusCode := resp.StatusCode, Message := resp.Body.data, Response := resp })
    ∧ (resp.Body.data = [] →
      parseErrorResponse resp = GoError.api
        { StatusCode := resp.StatusCode, Message := [], Response := resp }) := by
  have key : jsonValid resp.Body.data = false →
      parseErrorResponse resp = GoError.api
        { StatusCode := resp.StatusCode, Message := resp.Body.data, Response := resp } := by
    intro hbad
    rw [parseErrorResponse_readable resp hread,
      jsonUnmarshal_invalid _ _ (jsonValid_false _ hbad)]
  refine ⟨key, fun hempty => ?_⟩
  have h := key (by rw [hempty]; rfl)
  rw [hempty] at h
  exact h

theorem message_is_raw_body_when_not_json_witness :
    parseErrorResponse { StatusCode := 404, Body := { data := ascii "Not Found", readErr := none } }
      = GoError.api
        { StatusCode := 404, Message := ascii "Not Found",
          Response := { StatusCode := 404,
                        Body := { data := ascii "Not Found", readErr := none } } } :=
  (message_is_raw_body_when_not_json
    { StatusCode := 404, Body := { data := ascii "Not Found", readErr := none } } rfl).1
    (by decide)

theorem store_ErrorResponse_obj (cur : ErrorResponse) (ms : List (GoString × JValue)) :
    Decodable.store cur (JValue.obj ms) = storeFrom ErrorResponse.member (cur, none) ms := rfl

/-- C2, as the claim states it, fails: the body `{"error":"X","Error":"Y"}` is a
JSON object with an `error` member of string value `X`, and the message is `Y`. -/
theorem message_not_first_error_member :
    (∃ members,
      parseDocument (ascii "\x7b\"error\":\"X\",\"Error\":\"Y\"\x7d") = some (JValue.obj members)
      ∧ (ascii "error", JValue.str (ascii "X")) ∈ members)
    ∧ parseErrorResponse
        { StatusCode := 400,
          Body := { data := ascii "\x7b\"error\":\"X\",\"Error\":\"Y\"\x7d", readErr := none } }
      = GoError.api
          { StatusCode := 400, Message := ascii "Y",
            Response := { StatusCode := 400,
                          Body := { data := ascii "\x7b\"error\":\"X\",\"Error\":\"Y\"\x7d",
                                    readErr := none } } }
    ∧ ascii "Y" ≠ ascii "X" :=
  ⟨⟨[(ascii "error", JValue.str (ascii "X")), (ascii "Error", JValue.str (ascii "Y"))], rfl,
      List.mem_cons_self _ _⟩,
    by decide, by decide⟩

/-- C2, amended: for a response with status `s` whose body, read without
error, is a JSON object in which the last member named `error` (letter case
ignored) has string value `X` and every earlier member so named has a string
or `null` value, `parseErrorResponse` returns an `APIError` whose `Message` is
exactly `X` and whose `StatusCode` is `s`. -/
theorem message_is_last_error_member (resp : Response) (before after : List (GoString × JValue))
    (key X : GoString) (hread : resp.Body.readErr = none)
    (hdoc : parseDocument resp.Body.data
      = some (JValue.obj (before ++ (key, JValue.str X) :: after)))
    (hkey : namesErrorField key)
    (hbefore : ∀ m ∈ before, namesErrorField m.1 → fitsString m.2 = true)
    (hafter : ∀ m ∈ after, ¬ namesErrorField m.1) :
    parseErrorResponse resp
      = GoError.api { StatusCode := resp.StatusCode, Message := X, Response := resp } := by
  have h1 : (storeFrom ErrorResponse.member (({ Error := [] } : ErrorResponse), none) before).2
      = none := by
    apply storeFrom_no_error
    intro m hm cur
    by_cases hn : namesErrorField m.1
    · exact errorResponse_member_fits cur m.1 m.2 (hbefore m hm hn)
    · rw [errorResponse_member_other cur m.1 m.2 hn]
  have h2 : storeFrom ErrorResponse.member (({ Error := [] } : ErrorResponse), none)
      (before ++ (key, JValue.str X) :: after) = ({ Error := X }, none) := by
    rw [storeFrom_append, storeFrom_cons, h1, errorResponse_member_string _ _ _ hkey]
    exact storeFrom_unchanged _ _ _
      (fun m hm cur => errorResponse_member_other cur m.1 m.2 (hafter m hm))
  rw [parseErrorResponse_readable resp hread, jsonUnmarshal_valid _ _ _ hdoc,
    store_ErrorResponse_obj, h2]

theorem message_is_last_error_member_witness :
    parseErrorResponse
        { StatusCode := 429,
          Body := { data := ascii "\x7b\"code\":7,\"error\":\"quota exceeded\"\x7d",
                    readErr := none } }
      = GoError.api
          { StatusCode := 429, Message := ascii "quota exceeded",
            Response :=
              { StatusCode := 429,
                Body := { data := ascii "\x7b\"code\":7,\"error\":\"quota exceeded\"\x7d",
                          readErr := none } } } :=
  message_is_last_error_member
    { StatusCode := 429,
      Body := { data := ascii "\x7b\"code\":7,\"error\":\"quota exceeded\"\x7d",
                readErr := none } }
    [(ascii "code", JValue.num (ascii "7"))] [] (ascii "error") (ascii "quota exceeded") rfl rfl
    (by decide)
    (fun m hm hn => by
      rw [List.mem_singleton] at hm
      rw [hm] at hn
      exact absurd hn (by decide))
    (fun m hm => absurd hm (List.not_mem_nil m))

theorem storeFrom_error_kept {α : Type} (step : α → GoString → JValue → α × Option JSONError)
    (cur : α) (e : JSONError) (ms : List (GoString × JValue)) :
    (storeFrom step (cur, some e) ms).2 = some e := by
  induction ms generalizing cur with
  | nil => rfl
  | cons m ms ih =>
    rw [storeFrom_cons]
    exact ih _

theorem storeFrom_err_iff {α : Type} (step : α → GoString → JValue → α × Option JSONError)
    (ok : GoString → JValue → Bool)
    (hstep : ∀ cur k v, (step cur k v).2 = none ↔ ok k v = true)
    (cur : α) (ms : List (GoString × JValue)) :
    (storeFrom step (cur, none) ms).2 = none ↔ (ms.all fun m => ok m.1 m.2) = true := by
  induction ms generalizing cur with
  | nil => simp [storeFrom]
  | cons m ms ih =>
    rw [storeFrom_cons, List.all_cons, Bool.and_eq_true]
    cases hs : (step cur m.1 m.2).2 with
    | none =>
      have hok : ok m.1 m.2 = true := (hstep cur m.1 m.2).1 hs
      simp only [keepFirst, hok, true_and]
      exact ih _
    | some e =>
      have hok : ¬ ok m.1 m.2 = true := fun h => by
        rw [(hstep cur m.1 m.2).2 h] at hs
        cases hs
      simp only [keepFirst, storeFrom_error_kept, hok, false_and]
      simp

theorem storeStruct_err_iff {α : Type} (step : α → GoString → JValue → α × Option JSONError)
    (names : List GoString) (field : Nat → JValue → Bool)
    (hstep : ∀ cur k v, (step cur k v).2 = none ↔
      (match findField names k with
       | some i => field i v
       | none => true) = true)
    (cur : α) (v : JValue) :
    (storeStruct step cur v).2 = none ↔ fitsStruct names field v = true := by
  cases v with
  | obj ms =>
    exact storeFrom_err_iff step (fun k v => match findField names k with
       | some i => field i v
       | none => true) hstep cur ms
  | null => simp [storeStruct, fitsStruct]
  | bool b => simp [storeStruct, fitsStruct]
  | num l => simp [storeStruct, fitsStruct]
  | str s => simp [storeStruct, fitsStruct]
  | arr xs => simp [storeStruct, fitsStruct]

theorem storeString_err_iff (cur : GoString) (v : JValue) :
    (storeString cur v).2 = none ↔ fitsString v = true := by
  cases v <;> simp [storeString, fitsString]

theorem storeBool_err_iff (cur : Bool) (v : JValue) :
    (storeBool cur v).2 = none ↔ fitsBool v = true := by
  cases v <;> simp [storeBool, fitsBool]

theorem store_err_iff_PingResponse (cur : PingResponse) (v : JValue) :
    (Decodable.store cur v).2 = none ↔ PingResponse.fits v = true := by
  apply storeStruct_err_iff
  intro cur k v
  unfold PingResponse.member
  cases findField [ascii "message"] k with
  | none => simp
  | some i => exact storeString_err_iff _ _

theorem store_err_iff_FixJSONResponse (cur : FixJSONResponse) (v : JValue) :
    (Decodable.store cur v).2 = none ↔ FixJSONResponse.fits v = true := by
  apply storeStruct_err_iff
  intro cur k v
  unfold FixJSONResponse.member
  cases findField [ascii "fixed_json"] k with
  | none => simp
  | some i => exact storeString_err_iff _ _

theorem store_err_iff_ValidationError (cur : ValidationError) (v : JValue) :
    (Decodable.store cur v).2 = none
      ↔ fitsStruct [ascii "field", ascii "error"] (fun _ => fitsString) v = true := by
  apply storeStruct_err_iff
  intro cur k v
  unfold ValidationError.member
  cases findField [ascii "field", ascii "error"] k with
  | none => simp
  | some i =>
    cases i with
    | zero => exact storeString_err_iff _ _
    | succ j => exact storeString_err_iff _ _

theorem storeItems_cons_err (x : JValue) (xs : List JValue) (slots : List ValidationError) :
    (storeItems (x :: xs) slots).2.2
      = keepFirst (Decodable.store (slots.headD { Field := [], Error := [] }) x).2
          (storeItems xs slots.tail).2.2 := rfl

theorem storeItems_err_iff (items : List JValue) (slots : List ValidationError) :
    (storeItems items slots).2.2 = none
      ↔ items.all (fitsStruct [ascii "field", ascii "error"] fun _ => fitsString) = true := by
  induction items generalizing slots with
  | nil => simp [storeItems]
  | cons x xs ih =>
    rw [List.all_cons, Bool.and_eq_true, ← ih slots.tail, ← store_err_iff_ValidationError
      (slots.headD { Field := [], Error := [] }) x, storeItems_cons_err]
    cases (Decodable.store (slots.headD { Field := [], Error := [] }) x).2 <;> simp [keepFirst]

theorem storeSlice_err_iff (cur : ErrorSlice) (v : JValue) :
    (storeSlice cur v).2 = none ↔ fitsErrors v = true := by
  cases v with
  | arr xs =>
    cases xs with
    | nil => simp [storeSlice, fitsErrors]
    | cons x xs => exact storeItems_err_iff (x :: xs) _
  | null => simp [storeSlice, fitsErrors]
  | bool b => simp [storeSlice, fitsErrors]
  | num l => simp [storeSlice, fitsErrors]
  | str s => simp [storeSlice, fitsErrors]
  | obj ms => simp [storeSlice, fitsErrors]

theorem store_err_iff_ValidateResponse (cur : ValidateResponse) (v : JValue) :
    (Decodable.store cur v).2 = none ↔ ValidateResponse.fits v = true := by
  apply storeStruct_err_iff
  intro cur k v
  unfold ValidateResponse.member
  cases findField [ascii "is_valid", ascii "errors"] k with
  | none => simp
  | some i =>
    cases i with
    | zero => exact storeBool_err_iff _ _
    | succ j => exact storeSlice_err_iff _ _

theorem store_err_iff_ErrorResponse (cur : ErrorResponse) (v : JValue) :
    (Decodable.store cur v).2 = none
      ↔ fitsStruct [ascii "error"] (fun _ => fitsString) v = true := by
  apply storeStruct_err_iff
  intro cur k v
  unfold ErrorResponse.member
  cases findField [ascii "error"] k with
  | none => simp
  | some i => exact storeString_err_iff _ _

/-- Where `parseErrorResponse` does give the raw body: a body that is not
valid JSON, and a body that is valid JSON and cannot be stored into an
`ErrorResponse` (an array, a string, a number, `true`, `false`, or an object
with a member named `error` that is neither a string nor `null`). -/
theorem message_is_raw_body_when_unmarshal_fails (resp : Response)
    (hread : resp.Body.readErr = none) :
    (jsonValid resp.Body.data = false →
      parseErrorResponse resp = GoError.api
        { StatusCode := resp.StatusCode, Message := resp.Body.data, Response := resp })
    ∧ (∀ v, parseDocument resp.Body.data = some v →
        fitsStruct [ascii "error"] (fun _ => fitsString) v = false →
        parseErrorResponse resp = GoError.api
          { StatusCode := resp.StatusCode, Message := resp.Body.data, Response := resp }) := by
  refine ⟨fun hbad => ?_, fun v hdoc hfit => ?_⟩
  · rw [parseErrorResponse_readable resp hread,
      jsonUnmarshal_invalid _ _ (jsonValid_false _ hbad)]
  · rw [parseErrorResponse_readable resp hread, jsonUnmarshal_valid _ _ _ hdoc]
    cases hs : (Decodable.store ({ Error := [] } : ErrorResponse) v).2 with
    | none =>
      rw [(store_err_iff_ErrorResponse _ v).1 hs] at hfit
      cases hfit
    | some e => rfl

/-- C4: the code breaks the claim.  For the bodies `{}`, `null` and
`{"message":"x"}`, which have no `error` message, `parseErrorResponse` returns an
`APIError` whose `Message` is the empty string, where the claim (and the
fallback of the function itself, taken when the body cannot be parsed) gives
the raw body. -/
theorem message_empty_without_error_member :
    (parseErrorResponse { StatusCode := 500, Body := { data := ascii "\x7b\x7d", readErr := none } }
        = GoError.api
          { StatusCode := 500, Message := [],
            Response := { StatusCode := 500,
                          Body := { data := ascii "\x7b\x7d", readErr := none } } }
      ∧ ([] : GoString) ≠ ascii "\x7b\x7d")
    ∧ (parseErrorResponse { StatusCode := 500, Body := { data := ascii "null", readErr := none } }
        = GoError.api
          { StatusCode := 500, Message := [],
            Response := { StatusCode := 500,
                          Body := { data := ascii "null", readErr := none } } }
      ∧ ([] : GoString) ≠ ascii "null")
    ∧ (parseErrorResponse
          { StatusCode := 500,
            Body := { data := ascii "\x7b\"message\":\"x\"\x7d", readErr := none } }
        = GoError.api
          { StatusCode := 500, Message := [],
            Response := { StatusCode := 500,
                          Body := { data := ascii "\x7b\"message\":\"x\"\x7d",
                                    readErr := none } } }
      ∧ ([] : GoString) ≠ ascii "\x7b\"message\":\"x\"\x7d") := by
  decide

theorem handleResponse_success {α : Type} [Decodable α] (resp : Response) (dest : α)
    (h : 200 ≤ resp.StatusCode ∧ resp.StatusCode < 300) :
    handleResponse resp (some dest) =
      { err := (jsonDecode resp.Body dest).2.map fun je =>
          GoError.wrapped (ascii "failed to decode response") (GoError.json je),
        result := some (jsonDecode resp.Body dest).1,
        trace := [Event.readBody] } := by
  unfold handleResponse
  rw [if_neg (by omega)]
  simp only
  cases (jsonDecode resp.Body dest).2 <;> rfl

theorem handleResponse_nil {α : Type} [Decodable α] (resp : Response)
    (h : 200 ≤ resp.StatusCode ∧ resp.StatusCode < 300) :
    handleResponse resp (none : Option α) = { err := none, result := none, trace := [] } := by
  unfold handleResponse
  rw [if_neg (by omega)]

theorem jsonDecode_err_iff {α : Type} [Decodable α] (fits : JValue → Bool)
    (hfits : ∀ (cur : α) v, (Decodable.store cur v).2 = none ↔ fits v = true)
    (b : Body) (dest : α) :
    (jsonDecode b dest).2 = none ↔ ∃ v, readValue b = some v ∧ fits v = true := by
  unfold jsonDecode
  cases readValue b with
  | none => simp
  | some v => simpa using hfits dest v

theorem doRequest_decode {α : Type} [Decodable α] (fits : JValue → Bool)
    (hfits : ∀ (cur : α) v, (Decodable.store cur v).2 = none ↔ fits v = true)
    (w : World) (c : Client) (ctx : Option Context) (method path : GoString)
    (body : Option Payload) (dest : α) (requireAuth : Bool) (req : Request) (resp : Response)
    (h2xx : 200 ≤ resp.StatusCode ∧ resp.StatusCode < 300)
    (hresp : w.Do c.httpClient req = Except.ok resp)
    (hsent : Event.send req ∈ (doRequest w c ctx method path body (some dest) requireAuth).trace) :
    ((doRequest w c ctx method path body (some dest) requireAuth).err = none
        ↔ ∃ v, readValue resp.Body = some v ∧ fits v = true)
    ∧ (∀ e, (doRequest w c ctx method path body (some dest) requireAuth).err = some e →
        ∃ je, e = GoError.wrapped (ascii "failed to decode response") (GoError.json je)) := by
  rw [doRequest_of_response w c ctx method path body (some dest) requireAuth req resp hsent hresp,
    handleResponse_success resp dest h2xx]
  simp only [Option.map_eq_none', Option.map_eq_some']
  refine ⟨jsonDecode_err_iff fits hfits resp.Body dest, ?_⟩
  rintro e ⟨je, -, rfl⟩
  exact ⟨je, rfl⟩

/-- C7, as the claim states it, fails: on a 200 response `Ping` returns a nil
error for the body `{}`, in which the member `message` is missing, and for a
body in which data follows the JSON value. -/
theorem decode_accepts_missing_member_and_trailing_data :
    ((Ping (cannedWorld 200 { data := ascii "\x7b\x7d", readErr := none })
        (NewClient (ascii "lg-m-key") []) (some { id := 0 })).err = none
      ∧ (Ping (cannedWorld 200 { data := ascii "\x7b\x7d", readErr := none })
        (NewClient (ascii "lg-m-key") []) (some { id := 0 })).value = some { Message := [] })
    ∧ ((Ping (cannedWorld 200
          { data := ascii "\x7b\"message\":\"pong\"\x7d trailing ]", readErr := none })
        (NewClient (ascii "lg-m-key") []) (some { id := 0 })).err = none
      ∧ (Ping (cannedWorld 200
          { data := ascii "\x7b\"message\":\"pong\"\x7d trailing ]", readErr := none })
        (NewClient (ascii "lg-m-key") []) (some { id := 0 })).value
          = some { Message := ascii "pong" }) := by
  decide

theorem fitsStruct_not_number (names : List GoString) (field : Nat → JValue → Bool)
    (v : JValue) (h : fitsStruct names field v = true) : v.isNumber = false := by
  cases v <;> simp_all [fitsStruct, JValue.isNumber]

theorem readValue_fitsStruct (names : List GoString) (field : Nat → JValue → Bool) (b : Body) :
    (∃ v, readValue b = some v ∧ fitsStruct names field v = true)
      ↔ ∃ v rest, firstValue b.data = some (v, rest) ∧ fitsStruct names field v = true := by
  unfold readValue
  constructor
  · rintro ⟨v, hv, hfit⟩
    cases hf : firstValue b.data with
    | none => rw [hf] at hv; cases hv
    | some p =>
      obtain ⟨v0, rest⟩ := p
      rw [hf] at hv
      simp only at hv
      split at hv
      · cases hv
        exact ⟨_, _, rfl, hfit⟩
      · cases hv
  · rintro ⟨v, rest, hf, hfit⟩
    refine ⟨v, ?_, hfit⟩
    rw [hf]
    simp only
    rw [if_pos (Or.inl (fitsStruct_not_number names field v hfit))]

/-- C7, amended: on a response with a status in [200,300), `doRequest` with a
destination that is not nil returns nil exactly when the body starts with a
JSON value that is `null` or an object in which every member whose name
matches a field of the destination (exactly or under case folding) has a
value the field accepts: a string or `null` for a string field; `true`,
`false` or `null` for `is_valid`; for `errors`, `null` or an array each of whose
elements is `null` or an object whose `field` and `error` members are strings
or `null`.  Every other outcome is the error "failed to decode response".
Members that are missing or that match no field are accepted, and what
follows the first JSON value is not looked at.  With a nil destination
`doRequest` returns nil whatever the body is. -/
theorem decode_contract {α : Type} [Decodable α] (w : World) (c : Client) (ctx : Option Context)
    (method path : GoString) (body : Option Payload) (requireAuth : Bool) (req : Request)
    (resp : Response) (h2xx : 200 ≤ resp.StatusCode ∧ resp.StatusCode < 300)
    (hresp : w.Do c.httpClient req = Except.ok resp) :
    (Event.send req ∈ (doRequest w c ctx method path body (none : Option α) requireAuth).trace →
      (doRequest w c ctx method path body (none : Option α) requireAuth).err = none
      ∧ (doRequest w c ctx method path body (none : Option α) requireAuth).result = none)
    ∧ (∀ dest : PingResponse,
      Event.send req ∈ (doRequest w c ctx method path body (some dest) requireAuth).trace →
      ((doRequest w c ctx method path body (some dest) requireAuth).err = none
          ↔ ∃ v rest, firstValue resp.Body.data = some (v, rest) ∧ PingResponse.fits v = true)
      ∧ (∀ e, (doRequest w c ctx method path body (some dest) requireAuth).err = some e →
          ∃ je, e = GoError.wrapped (ascii "failed to decode response") (GoError.json je)))
    ∧ (∀ dest : ValidateResponse,
      Event.send req ∈ (doRequest w c ctx method path body (some dest) requireAuth).trace →
      ((doRequest w c ctx method path body (some dest) requireAuth).err = none
          ↔ ∃ v rest, firstValue resp.Body.data = some (v, rest)
              ∧ ValidateResponse.fits v = true)
      ∧ (∀ e, (doRequest w c ctx method path body (some dest) requireAuth).err = some e →
          ∃ je, e = GoError.wrapped (ascii "failed to decode response") (GoError.json je)))
    ∧ (∀ dest : FixJSONResponse,
      Event.send req ∈ (doRequest w c ctx method path body (some dest) requireAuth).trace →
      ((doRequest w c ctx method path body (some dest) requireAuth).err = none
          ↔ ∃ v rest, firstValue resp.Body.data = some (v, rest)
              ∧ FixJSONResponse.fits v = true)
      ∧ (∀ e, (doRequest w c ctx method path body (some dest) requireAuth).err = some e →
          ∃ je, e = GoError.wrapped (ascii "failed to decode response") (GoError.json je))) := by
  refine ⟨fun hsent => ?_, fun dest hsent => ?_, fun dest hsent => ?_, fun dest hsent => ?_⟩
  · rw [doRequest_of_response w c ctx method path body none requireAuth req resp hsent hresp,
      handleResponse_nil resp h2xx]
    exact ⟨rfl, rfl⟩
  · have h := doRequest_decode _ store_err_iff_PingResponse w c ctx method path body dest
      requireAuth req resp h2xx hresp hsent
    exact ⟨h.1.trans (readValue_fitsStruct _ _ resp.Body), h.2⟩
  · have h := doRequest_decode _ store_err_iff_ValidateResponse w c ctx method path body dest
      requireAuth req resp h2xx hresp hsent
    exact ⟨h.1.trans (readValue_fitsStruct _ _ resp.Body), h.2⟩
  · have h := doRequest_decode _ store_err_iff_FixJSONResponse w c ctx method path body dest
      requireAuth req resp h2xx hresp hsent
    exact ⟨h.1.trans (readValue_fitsStruct _ _ resp.Body), h.2⟩

theorem decode_contract_witness :
    (doRequest (cannedWorld 200 { data := ascii "\x7b\"is_valid\":\"yes\"\x7d", readErr := none })
        (NewClient (ascii "lg-m-key") []) (some { id := 0 }) (ascii "GET") (ascii "/ping") none
        (none : Option ValidateResponse) false).err = none
    ∧ (∀ e, (doRequest
        (cannedWorld 200 { data := ascii "\x7b\"is_valid\":\"yes\"\x7d", readErr := none })
        (NewClient (ascii "lg-m-key") []) (some { id := 0 }) (ascii "GET") (ascii "/ping") none
        (some ({ IsValid := false, Errors := ErrorSlice.nil } : ValidateResponse))
        false).err = some e →
      ∃ je, e = GoError.wrapped (ascii "failed to decode response") (GoError.json je))
    ∧ (doRequest
        (cannedWorld 200 { data := ascii "null", readErr := some (ascii "unexpected EOF") })
        (NewClient (ascii "lg-m-key") []) (some { id := 0 }) (ascii "GET") (ascii "/ping") none
        (some ({ Message := [] } : PingResponse)) false).err = none :=
  ⟨((decode_contract (α := ValidateResponse)
      (cannedWorld 200 { data := ascii "\x7b\"is_valid\":\"yes\"\x7d", readErr := none })
      (NewClient (ascii "lg-m-key") []) (some { id := 0 }) (ascii "GET") (ascii "/ping") none false
      (expectedRequest (NewClient (ascii "lg-m-key") []) { id := 0 } (ascii "GET") (ascii "/ping")
        none false)
      { StatusCode := 200,
        Body := { data := ascii "\x7b\"is_valid\":\"yes\"\x7d", readErr := none } }
      (by decide) rfl).1 (by decide)).1,
   ((decode_contract (α := ValidateResponse)
      (cannedWorld 200 { data := ascii "\x7b\"is_valid\":\"yes\"\x7d", readErr := none })
      (NewClient (ascii "lg-m-key") []) (some { id := 0 }) (ascii "GET") (ascii "/ping") none false
      (expectedRequest (NewClient (ascii "lg-m-key") []) { id := 0 } (ascii "GET") (ascii "/ping")
        none false)
      { StatusCode := 200,
        Body := { data := ascii "\x7b\"is_valid\":\"yes\"\x7d", readErr := none } }
      (by decide) rfl).2.2.1
      { IsValid := false, Errors := ErrorSlice.nil } (by decide)).2,
   (((decode_contract (α := PingResponse)
      (cannedWorld 200 { data := ascii "null", readErr := some (ascii "unexpected EOF") })
      (NewClient (ascii "lg-m-key") []) (some { id := 0 }) (ascii "GET") (ascii "/ping") none false
      (expectedRequest (NewClient (ascii "lg-m-key") []) { id := 0 } (ascii "GET") (ascii "/ping")
        none false)
      { StatusCode := 200,
        Body := { data := ascii "null", readErr := some (ascii "unexpected EOF") } }
      (by decide) rfl).2.1
      { Message := [] } (by decide)).1).2 ⟨JValue.null, [], rfl, rfl⟩⟩

theorem store_toJSON_PingResponse (cur v : PingResponse) :
    Decodable.store cur v.toJSON = (v, none) := by
  have hf : findField [ascii "message"] (ascii "message") = some 0 := by decide
  simp [Decodable.store, storeStruct, storeMembers, PingResponse.toJSON, PingResponse.member, hf,
    storeString, keepFirst]

theorem store_toJSON_FixJSONResponse (cur v : FixJSONResponse) :
    Decodable.store cur v.toJSON = (v, none) := by
  have hf : findField [ascii "fixed_json"] (ascii "fixed_json") = some 0 := by decide
  simp [Decodable.store, storeStruct, storeMembers, FixJSONResponse.toJSON,
    FixJSONResponse.member, hf, storeString, keepFirst]

theorem store_toJSON_ValidationError (cur e : ValidationError) :
    Decodable.store cur e.toJSON = (e, none) := by
  have hf : findField [ascii "field", ascii "error"] (ascii "field") = some 0 := by decide
  have he : findField [ascii "field", ascii "error"] (ascii "error") = some 1 := by decide
  simp [Decodable.store, storeStruct, storeMembers, ValidationError.toJSON,
    ValidationError.member, hf, he, storeString, keepFirst]

theorem storeItems_toJSON (es slots : List ValidationError) :
    (storeItems (es.map ValidationError.toJSON) slots).1 = es
    ∧ (storeItems (es.map ValidationError.toJSON) slots).2.2 = none := by
  induction es generalizing slots with
  | nil => exact ⟨rfl, rfl⟩
  | cons e es ih =>
    rw [List.map_cons]
    unfold storeItems
    simp [store_toJSON_ValidationError, (ih slots.tail).1, (ih slots.tail).2, keepFirst]

theorem storeSlice_toJSON (cur s : ErrorSlice) :
    (storeSlice cur s.toJSON).1.elems = s.elems
    ∧ (storeSlice cur s.toJSON).1.isNil = s.isNil
    ∧ (storeSlice cur s.toJSON).2 = none := by
  cases s with
  | nil => exact ⟨rfl, rfl, rfl⟩
  | slice es sp =>
    cases es with
    | nil => exact ⟨rfl, rfl, rfl⟩
    | cons e es =>
      exact ⟨(storeItems_toJSON (e :: es) _).1, rfl, (storeItems_toJSON (e :: es) _).2⟩

theorem store_toJSON_ValidateResponse (cur v : ValidateResponse) :
    (Decodable.store cur v.toJSON).1.IsValid = v.IsValid
    ∧ (Decodable.store cur v.toJSON).1.Errors.elems = v.Errors.elems
    ∧ (Decodable.store cur v.toJSON).1.Errors.isNil = v.Errors.isNil
    ∧ (Decodable.store cur v.toJSON).2 = none := by
  have hf : findField [ascii "is_valid", ascii "errors"] (ascii "is_valid") = some 0 := by decide
  have he : findField [ascii "is_valid", ascii "errors"] (ascii "errors") = some 1 := by decide
  have h := storeSlice_toJSON cur.Errors v.Errors
  simp [Decodable.store, storeStruct, storeMembers, ValidateResponse.toJSON,
    ValidateResponse.member, hf, he, storeBool, keepFirst, h.1, h.2.1, h.2.2]

theorem doRequest_decoded {α : Type} [Decodable α] (w : World) (c : Client)
    (ctx : Option Context) (method path : GoString) (body : Option Payload) (dest : α)
    (requireAuth : Bool) (req : Request) (resp : Response) (v : JValue)
    (h2xx : 200 ≤ resp.StatusCode ∧ resp.StatusCode < 300)
    (hresp : w.Do c.httpClient req = Except.ok resp)
    (hsent : Event.send req ∈ (doRequest w c ctx method path body (some dest) requireAuth).trace)
    (hbody : readValue resp.Body = some v) :
    (doRequest w c ctx method path body (some dest) requireAuth).err
        = (Decodable.store dest v).2.map (fun je =>
            GoError.wrapped (ascii "failed to decode response") (GoError.json je))
    ∧ (doRequest w c ctx method path body (some dest) requireAuth).result
        = some (Decodable.store dest v).1 := by
  rw [doRequest_of_response w c ctx method path body (some dest) requireAuth req resp hsent hresp,
    handleResponse_success resp dest h2xx]
  unfold jsonDecode
  rw [hbody]
  exact ⟨rfl, rfl⟩

/-! ## The parser consumes its input -/

theorem skipSpace_length (s : GoString) : (skipSpace s).length ≤ s.length := by
  induction s with
  | nil => exact Nat.le_refl _
  | cons c t ih =>
    rw [skipSpace.eq_def]
    simp only
    split
    · simp only [List.length_cons]; omega
    · exact Nat.le_refl _

theorem emit_some (bs : GoString) (o : Option (GoString × GoString)) (x r : GoString)
    (h : emit bs o = some (x, r)) : ∃ y, o = some (y, r) := by
  unfold emit at h
  cases o with
  | none => cases h
  | some p =>
    simp only [Option.map_some', Option.some.injEq, Prod.mk.injEq] at h
    exact ⟨p.1, by rw [← h.2]⟩

theorem stringLit_shorter (s : GoString) :
    ∀ (k : Nat) (x r : GoString), stringLit k s = some (x, r) → r.length + k < s.length := by
  induction s with
  | nil =>
    intro k x r h
    cases k <;> simp [stringLit] at h
  | cons c t ih =>
    intro k x r h
    cases k with
    | succ k =>
      rw [stringLit] at h
      have := ih k x r h
      simp only [List.length_cons]
      omega
    | zero =>
      rw [stringLit.eq_def] at h
      simp only at h
      simp only [List.length_cons]
      split at h
      · cases h; omega
      · split at h
        · split at h
          · cases h
          · split at h
            · split at h
              · cases h
              · split at h
                · split at h
                  · obtain ⟨y, hy⟩ := emit_some _ _ _ _ h
                    have := ih _ _ _ hy
                    omega
                  · obtain ⟨y, hy⟩ := emit_some _ _ _ _ h
                    have := ih _ _ _ hy
                    omega
                · obtain ⟨y, hy⟩ := emit_some _ _ _ _ h
                  have := ih _ _ _ hy
                  omega
            · split at h
              · cases h
              · obtain ⟨y, hy⟩ := emit_some _ _ _ _ h
                have := ih _ _ _ hy
                omega
        · split at h
          · cases h
          · split at h
            · obtain ⟨y, hy⟩ := emit_some _ _ _ _ h
              have := ih _ _ _ hy
              omega
            · obtain ⟨y, hy⟩ := emit_some _ _ _ _ h
              have := ih _ _ _ hy
              omega

theorem spanDigits_length (s : GoString) : (spanDigits s).2.length ≤ s.length := by
  induction s with
  | nil => exact Nat.le_refl _
  | cons c t ih =>
    rw [spanDigits.eq_def]
    simp only
    split
    · simp only [List.length_cons]; omega
    · exact Nat.le_refl _

theorem numberExp_shorter (s l r : GoString) (h : numberExp s = some (l, r)) :
    r.length ≤ s.length := by
  unfold numberExp at h
  cases s with
  | nil => cases h
  | cons c t =>
    simp only at h
    split at h
    · split at h
      · cases h
      · simp only [Option.some.injEq, Prod.mk.injEq] at h
        rw [← h.2]
        have := spanDigits_length t
        simp only [List.length_cons]
        omega
    · split at h
      · cases h
      · simp only [Option.some.injEq, Prod.mk.injEq] at h
        rw [← h.2]
        exact spanDigits_length (c :: t)

theorem map_some_snd {α β : Type} (f : α × GoString → β) (o : Option (α × GoString))
    (x : β × GoString)
    (h : o.map (fun p => (f p, p.2)) = some x) : ∃ y, o = some (y, x.2) := by
  cases o with
  | none => cases h
  | some p =>
    simp only [Option.map_some', Option.some.injEq] at h
    exact ⟨p.1, by rw [← h]⟩

theorem numberTail_shorter (s l r : GoString) (h : numberTail s = some (l, r)) :
    r.length ≤ s.length := by
  unfold numberTail at h
  split at h
  · rename_i t
    split at h
    · cases h
    · split at h
      · rename_i e t1 hsp
        have hlen := spanDigits_length t
        rw [hsp] at hlen
        simp only [List.length_cons] at hlen ⊢
        split at h
        · obtain ⟨y, hy⟩ := map_some_snd _ _ _ h
          have := numberExp_shorter _ _ _ hy
          simp only at this
          omega
        · simp only [Option.some.injEq, Prod.mk.injEq] at h
          rw [← h.2]
          simp only [List.length_cons]
          omega
      · simp only [Option.some.injEq, Prod.mk.injEq] at h
        rw [← h.2]
        simp
  · rename_i e t _
    simp only [List.length_cons]
    split at h
    · obtain ⟨y, hy⟩ := map_some_snd _ _ _ h
      have := numberExp_shorter _ _ _ hy
      simp only at this
      omega
    · simp only [Option.some.injEq, Prod.mk.injEq] at h
      rw [← h.2]
      simp
  · simp only [Option.some.injEq, Prod.mk.injEq] at h
    rw [← h.2]

theorem numberInt_shorter (s l r : GoString) (h : numberInt s = some (l, r)) :
    r.length < s.length := by
  unfold numberInt at h
  cases s with
  | nil => cases h
  | cons c t =>
    simp only at h
    simp only [List.length_cons]
    split at h
    · obtain ⟨y, hy⟩ := map_some_snd _ _ _ h
      have := numberTail_shorter _ _ _ hy
      simp only at this
      omega
    · split at h
      · obtain ⟨y, hy⟩ := map_some_snd _ _ _ h
        have := numberTail_shorter _ _ _ hy
        have := spanDigits_length t
        simp only at *
        omega
      · cases h

theorem numberLit_shorter (s l r : GoString) (h : numberLit s = some (l, r)) :
    r.length < s.length := by
  unfold numberLit at h
  split at h
  · obtain ⟨y, hy⟩ := map_some_snd _ _ _ h
    have := numberInt_shorter _ _ _ hy
    simp only [List.length_cons] at *
    omega
  · exact numberInt_shorter _ _ _ h

theorem parseElems_shorter (pv : GoString → Option (JValue × GoString)) (hpv : Consumes pv)
    (n : Nat) : ∀ (s : GoString) (xs : List JValue) (r : GoString),
      parseElems pv n s = some (xs, r) → r.length < s.length := by
  induction n with
  | zero => intro s xs r h; simp [parseElems] at h
  | succ n ih =>
    intro s xs r h
    rw [parseElems] at h
    split at h
    · cases h
    · rename_i v r0 hv
      have h0 := hpv _ _ _ hv
      have h1 := skipSpace_length r0
      split at h
      · rename_i r1 hs
        rw [hs] at h1
        obtain ⟨y, hy⟩ := map_some_snd _ _ _ h
        have := ih _ _ _ hy
        simp only [List.length_cons] at *
        omega
      · rename_i r1 hs
        rw [hs] at h1
        simp only [Option.some.injEq, Prod.mk.injEq] at h
        rw [← h.2]
        simp only [List.length_cons] at *
        omega
      · cases h

theorem parseMembers_shorter (pv : GoString → Option (JValue × GoString)) (hpv : Consumes pv)
    (n : Nat) : ∀ (s : GoString) (ms : List (GoString × JValue)) (r : GoString),
      parseMembers pv n s = some (ms, r) → r.length < s.length := by
  induction n with
  | zero => intro s ms r h; simp [parseMembers] at h
  | succ n ih =>
    intro s ms r h
    rw [parseMembers] at h
    have h0 := skipSpace_length s
    split at h
    · rename_i r0 hs0
      rw [hs0] at h0
      split at h
      · cases h
      · rename_i k r1 hk
        have h1 := stringLit_shorter _ _ _ _ hk
        have h2 := skipSpace_length r1
        split at h
        · rename_i r2 hs2
          rw [hs2] at h2
          split at h
          · cases h
          · rename_i v r3 hv
            have h3 := hpv _ _ _ hv
            have h4 := skipSpace_length r3
            split at h
            · rename_i r4 hs4
              rw [hs4] at h4
              obtain ⟨y, hy⟩ := map_some_snd _ _ _ h
              have := ih _ _ _ hy
              simp only [List.length_cons] at *
              omega
            · rename_i r4 hs4
              rw [hs4] at h4
              simp only [Option.some.injEq, Prod.mk.injEq] at h
              rw [← h.2]
              simp only [List.length_cons] at *
              omega
            · cases h
        · cases h
    · cases h

theorem parseElems_fuel (pv : GoString → Option (JValue × GoString)) (hpv : Consumes pv)
    (n : Nat) : ∀ (m : Nat) (s : GoString), s.length ≤ n → s.length ≤ m →
      parseElems pv n s = parseElems pv m s := by
  induction n with
  | zero =>
    intro m s hn _
    have hs : s = [] := List.length_eq_zero.mp (by omega)
    subst hs
    cases m with
    | zero => rfl
    | succ m =>
      rw [parseElems, parseElems]
      cases hv : pv [] with
      | none => rfl
      | some p =>
        have := hpv [] p.1 p.2 hv
        simp at this
  | succ n ih =>
    intro m s hn hm
    cases m with
    | zero =>
      have hs : s = [] := List.length_eq_zero.mp (by omega)
      subst hs
      rw [parseElems, parseElems]
      cases hv : pv [] with
      | none => rfl
      | some p =>
        have := hpv [] p.1 p.2 hv
        simp at this
    | succ m =>
      rw [parseElems, parseElems]
      cases hv : pv s with
      | none => rfl
      | some p =>
        obtain ⟨v, r0⟩ := p
        have h0 := hpv _ _ _ hv
        have h1 := skipSpace_length r0
        simp only
        split
        · rename_i r1 hs
          rw [hs] at h1
          simp only [List.length_cons] at h1
          rw [ih m r1 (by omega) (by omega)]
        · rfl
        · rfl

theorem parseMembers_fuel (pv : GoString → Option (JValue × GoString)) (hpv : Consumes pv)
    (n : Nat) : ∀ (m : Nat) (s : GoString), s.length ≤ n → s.length ≤ m →
      parseMembers pv n s = parseMembers pv m s := by
  induction n with
  | zero =>
    intro m s hn _
    have hs : s = [] := List.length_eq_zero.mp (by omega)
    subst hs
    cases m with
    | zero => rfl
    | succ m => rfl
  | succ n ih =>
    intro m s hn hm
    cases m with
    | zero =>
      have hs : s = [] := List.length_eq_zero.mp (by omega)
      subst hs
      rfl
    | succ m =>
      rw [parseMembers, parseMembers]
      have h0 := skipSpace_length s
      split
      · rename_i r0 hs0
        rw [hs0] at h0
        split
        · rfl
        · rename_i k r1 hk
          have h1 := stringLit_shorter _ _ _ _ hk
          have h2 := skipSpace_length r1
          split
          · rename_i r2 hs2
            rw [hs2] at h2
            split
            · rfl
            · rename_i v r3 hv
              have h3 := hpv _ _ _ hv
              have h4 := skipSpace_length r3
              split
              · rename_i r4 hs4
                rw [hs4] at h4
                simp only [List.length_cons] at *
                rw [ih m r4 (by omega) (by omega)]
              · rfl
              · rfl
          · rfl
      · rfl

theorem parseValue_consumes (d : Nat) : Consumes (parseValue d) := by
  induction d with
  | zero => intro s v r h; simp [parseValue] at h
  | succ d ih =>
    intro s v r h
    rw [parseValue] at h
    have h0 := skipSpace_length s
    split at h
    · cases h
    · rename_i c t hs
      rw [hs] at h0
      simp only [List.length_cons] at h0
      split at h
      · split at h
        · cases h
        · have h1 := skipSpace_length t
          split at h
          · rename_i r1 hs1
            rw [hs1] at h1
            simp only [Option.some.injEq, Prod.mk.injEq] at h
            rw [← h.2]
            simp only [List.length_cons] at h1
            omega
          · obtain ⟨y, hy⟩ := map_some_snd _ _ _ h
            have := parseMembers_shorter _ ih _ _ _ _ hy
            simp only at this
            omega
      · split at h
        · split at h
          · cases h
          · have h1 := skipSpace_length t
            split at h
            · rename_i r1 hs1
              rw [hs1] at h1
              simp only [Option.some.injEq, Prod.mk.injEq] at h
              rw [← h.2]
              simp only [List.length_cons] at h1
              omega
            · obtain ⟨y, hy⟩ := map_some_snd _ _ _ h
              have := parseElems_shorter _ ih _ _ _ _ hy
              simp only at this
              omega
        · split at h
          · obtain ⟨y, hy⟩ := map_some_snd _ _ _ h
            have := stringLit_shorter _ _ _ _ hy
            simp only at this
            omega
          · split at h
            · split at h
              · simp only [Option.some.injEq, Prod.mk.injEq] at h
                rw [← h.2]
                simp only [List.length_cons] at h0
                omega
              · cases h
            · split at h
              · split at h
                · simp only [Option.some.injEq, Prod.mk.injEq] at h
                  rw [← h.2]
                  simp only [List.length_cons] at h0
                  omega
                · cases h
              · split at h
                · split at h
                  · simp only [Option.some.injEq, Prod.mk.injEq] at h
                    rw [← h.2]
                    simp only [List.length_cons] at h0
                    omega
                  · cases h
                · obtain ⟨y, hy⟩ := map_some_snd _ _ _ h
                  have := numberLit_shorter _ _ _ hy
                  simp only [List.length_cons] at this
                  omega

/-- The bound on the number of members and elements that `parseValue` passes
on is never reached: any larger bound gives the same result. -/
theorem parse_bound_is_enough (d n : Nat) (s : GoString) (h : s.length ≤ n) :
    parseMembers (parseValue d) n s = parseMembers (parseValue d) s.length s
    ∧ parseElems (parseValue d) n s = parseElems (parseValue d) s.length s :=
  ⟨parseMembers_fuel _ (parseValue_consumes d) n s.length s h (Nat.le_refl _),
   parseElems_fuel _ (parseValue_consumes d) n s.length s h (Nat.le_refl _)⟩

/-! ## Strings written and read back -/

theorem stringLit_skip (p t : GoString) : stringLit p.length (p ++ t) = stringLit 0 t := by
  induction p with
  | nil => rfl
  | cons a p ih =>
    show stringLit (p.length + 1) (a :: (p ++ t)) = _
    rw [stringLit]
    exact ih

theorem appendStringFrom_skip (p t : GoString) :
    appendStringFrom p.length (p ++ t) = appendStringFrom 0 t := by
  induction p with
  | nil => rfl
  | cons a p ih =>
    show appendStringFrom (p.length + 1) (a :: (p ++ t)) = _
    rw [appendStringFrom]
    exact ih

theorem utf8ValidFrom_skip (p t : GoString) :
    utf8ValidFrom p.length (p ++ t) = utf8ValidFrom 0 t := by
  induction p with
  | nil => rfl
  | cons a p ih =>
    show utf8ValidFrom (p.length + 1) (a :: (p ++ t)) = _
    rw [utf8ValidFrom]
    exact ih

theorem utf8ValidFrom_short (n : Nat) (t : GoString) (h : t.length < n) :
    utf8ValidFrom n t = false := by
  induction t generalizing n with
  | nil =>
    cases n with
    | zero => simp at h
    | succ k => rfl
  | cons a t ih =>
    cases n with
    | zero => simp at h
    | succ k =>
      rw [utf8ValidFrom]
      exact ih k (by simpa using h)

theorem stringLit_plain (c : Nat) (t : GoString) (h1 : c ≠ 0x22) (h2 : c ≠ 0x5C)
    (h3 : 0x20 ≤ c) (h4 : c < 0x80) : stringLit 0 (c :: t) = emit [c] (stringLit 0 t) := by
  rw [stringLit.eq_def]
  simp only
  rw [if_neg h1, if_neg h2, if_neg (by omega), if_pos h4]

theorem stringLit_rune (c : Nat) (t : GoString) (h : 0x80 ≤ c) :
    stringLit 0 (c :: t)
      = emit (encodeRune (decodeRune (c :: t)).1) (stringLit ((decodeRune (c :: t)).2 - 1) t) := by
  rw [stringLit.eq_def]
  simp only
  rw [if_neg (by omega), if_neg (by omega), if_neg (by omega), if_neg (by omega)]

theorem stringLit_escape (e b : Nat) (t : GoString) (he : e ≠ 0x75)
    (hb : simpleEscape e = some b) :
    stringLit 0 (0x5C :: e :: t) = emit [b] (stringLit 0 t) := by
  rw [stringLit]
  rw [if_neg (by omega), if_pos rfl]
  simp only [if_neg he, hb]
  rw [stringLit]

theorem stringLit_escape_u (a b c d x y z w : Nat) (t : GoString)
    (ha : hexVal a = some x) (hb : hexVal b = some y) (hc : hexVal c = some z)
    (hd : hexVal d = some w)
    (hr : ¬ (0xD800 ≤ x * 4096 + y * 256 + z * 16 + w ∧ x * 4096 + y * 256 + z * 16 + w < 0xE000)) :
    stringLit 0 (0x5C :: 0x75 :: a :: b :: c :: d :: t)
      = emit (encodeRune (x * 4096 + y * 256 + z * 16 + w)) (stringLit 0 t) := by
  rw [stringLit]
  rw [if_neg (by omega), if_pos rfl]
  simp only [if_pos, getu4, ha, hb, hc, hd, if_neg hr]
  exact congrArg _ (stringLit_skip [0x75, a, b, c, d] t)


theorem decodeRune_of_runeBytes (chunk : GoString) (r : Nat) (h : RuneBytes chunk r)
    (rest : GoString) : decodeRune (chunk ++ rest) = (r, chunk.length) := by
  cases h with
  | two b b1 h h1 =>
    have ha : acceptRange b = (0x80, 0xBF) := by
      unfold acceptRange
      rw [if_neg (by omega), if_neg (by omega), if_neg (by omega), if_neg (by omega)]
    simp only [List.cons_append, List.nil_append, decodeRune, ha]
    rw [if_neg (by omega), if_neg (by omega), if_neg (by omega), if_pos (by omega)]
    rfl
  | three b b1 b2 h h1 h2 =>
    simp only [List.cons_append, List.nil_append, decodeRune]
    rw [if_neg (by omega), if_neg (by omega), if_neg (by omega), if_neg (by omega),
      if_neg (by omega), if_pos (by omega)]
    rfl
  | four b b1 b2 b3 h h1 h2 h3 =>
    simp only [List.cons_append, List.nil_append, decodeRune]
    rw [if_neg (by omega), if_neg (by omega), if_neg (by omega), if_neg (by omega),
      if_neg (by omega), if_neg (by omega), if_neg (by omega)]
    rfl

theorem encodeRune_of_runeBytes (chunk : GoString) (r : Nat) (h : RuneBytes chunk r) :
    encodeRune r = chunk ∧ 0x80 ≤ r := by
  cases h with
  | two b b1 h h1 =>
    refine ⟨?_, by omega⟩
    unfold encodeRune
    rw [if_neg (by omega), if_pos (by omega)]
    congr 1
    · omega
    · congr 1
      omega
  | three b b1 b2 h h1 h2 =>
    have hr : (acceptRange b).1 ≤ b1 ∧ b1 ≤ (acceptRange b).2 →
        (0x80 ≤ b1 ∧ b1 ≤ 0xBF) ∧ 0x800 ≤ (b % 16) * 4096 + (b1 % 64) * 64 + b2 % 64
        ∧ ¬ (0xD800 ≤ (b % 16) * 4096 + (b1 % 64) * 64 + b2 % 64
            ∧ (b % 16) * 4096 + (b1 % 64) * 64 + b2 % 64 ≤ 0xDFFF) := by
      unfold acceptRange
      split_ifs <;> intro h1 <;> simp only at h1 <;> omega
    obtain ⟨hb1, hlo, hsur⟩ := hr h1
    refine ⟨?_, by omega⟩
    unfold encodeRune
    rw [if_neg (by omega), if_neg (by omega), if_neg (by omega), if_pos (by omega)]
    congr 1
    · omega
    · congr 1
      · omega
      · congr 1
        omega
  | four b b1 b2 b3 h h1 h2 h3 =>
    have hr : (acceptRange b).1 ≤ b1 ∧ b1 ≤ (acceptRange b).2 →
        (0x80 ≤ b1 ∧ b1 ≤ 0xBF) ∧ 0x10000 ≤ (b % 8) * 262144 + (b1 % 64) * 4096 + (b2 % 64) * 64 + b3 % 64
        ∧ (b % 8) * 262144 + (b1 % 64) * 4096 + (b2 % 64) * 64 + b3 % 64 ≤ 0x10FFFF := by
      unfold acceptRange
      split_ifs <;> intro h1 <;> simp only at h1 <;> omega
    obtain ⟨hb1, hlo, hhi⟩ := hr h1
    refine ⟨?_, by omega⟩
    unfold encodeRune
    rw [if_neg (by omega), if_neg (by omega), if_neg (by omega), if_neg (by omega)]
    congr 1
    · omega
    · congr 1
      · omega
      · congr 1
        · omega
        · congr 1
          omega

theorem decodeRune_cases (b : Nat) (t : GoString) (hb : 0x80 ≤ b) :
    decodeRune (b :: t) = (RuneError, 1)
      ∨ ∃ chunk rest r, b :: t = chunk ++ rest ∧ RuneBytes chunk r := by
  have hacc : 0x80 ≤ (acceptRange b).1 ∧ (acceptRange b).2 ≤ 0xBF := by
    unfold acceptRange
    split_ifs <;> simp
  by_cases h0 : b < 0xC2 ∨ 0xF4 < b
  · left
    simp only [decodeRune]
    rw [if_neg (by omega), if_pos h0]
  cases t with
  | nil =>
    left
    simp only [decodeRune]
    rw [if_neg (by omega), if_neg h0]
  | cons b1 t1 =>
    by_cases h1 : b1 < (acceptRange b).1 ∨ (acceptRange b).2 < b1
    · left
      simp only [decodeRune]
      rw [if_neg (by omega), if_neg h0, if_pos h1]
    by_cases h2 : b < 0xE0
    · exact Or.inr ⟨[b, b1], t1, _, rfl, RuneBytes.two b b1 (by omega) (by omega)⟩
    cases t1 with
    | nil =>
      left
      simp only [decodeRune]
      rw [if_neg (by omega), if_neg h0, if_neg h1, if_neg h2]
    | cons b2 t2 =>
      by_cases h3 : b2 < 0x80 ∨ 0xBF < b2
      · left
        simp only [decodeRune]
        rw [if_neg (by omega), if_neg h0, if_neg h1, if_neg h2, if_pos h3]
      by_cases h4 : b < 0xF0
      · exact Or.inr ⟨[b, b1, b2], t2, _, rfl,
          RuneBytes.three b b1 b2 (by omega) (by omega) (by omega)⟩
      cases t2 with
      | nil =>
        left
        simp only [decodeRune]
        rw [if_neg (by omega), if_neg h0, if_neg h1, if_neg h2, if_neg h3, if_neg h4]
      | cons b3 t3 =>
        by_cases h5 : b3 < 0x80 ∨ 0xBF < b3
        · left
          simp only [decodeRune]
          rw [if_neg (by omega), if_neg h0, if_neg h1, if_neg h2, if_neg h3, if_neg h4, if_pos h5]
        exact Or.inr ⟨[b, b1, b2, b3], t3, _, rfl,
          RuneBytes.four b b1 b2 b3 (by omega) (by omega) (by omega) (by omega)⟩

theorem runeBytes_head (chunk : GoString) (r : Nat) (h : RuneBytes chunk r) :
    ∃ b tl, chunk = b :: tl ∧ 0x80 ≤ b := by
  cases h with
  | two b b1 h h1 => exact ⟨b, _, rfl, by omega⟩
  | three b b1 b2 h h1 h2 => exact ⟨b, _, rfl, by omega⟩
  | four b b1 b2 b3 h h1 h2 h3 => exact ⟨b, _, rfl, by omega⟩


theorem runeBytes_length (chunk : GoString) (r : Nat) (h : RuneBytes chunk r) :
    2 ≤ chunk.length := by
  cases h <;> simp

theorem utf8ValidFrom_ascii (b : Nat) (t : GoString) (hb : b < 0x80) :
    utf8ValidFrom 0 (b :: t) = utf8ValidFrom 0 t := by
  have hd : decodeRune (b :: t) = (b, 1) := by
    simp only [decodeRune]
    rw [if_pos hb]
  rw [utf8ValidFrom.eq_def]
  simp only [hd]
  rw [if_neg (by unfold RuneError; omega)]

theorem appendStringFrom_ascii (b : Nat) (t : GoString) (hb : b < 0x80) :
    appendStringFrom 0 (b :: t)
      = (if htmlSafe b then [b] else escapeByte b) ++ appendStringFrom 0 t := by
  rw [appendStringFrom.eq_def]
  simp only
  rw [if_pos hb]

theorem utf8ValidFrom_rune (chunk rest : GoString) (r : Nat) (h : RuneBytes chunk r) :
    utf8ValidFrom 0 (chunk ++ rest) = utf8ValidFrom 0 rest := by
  have hd := decodeRune_of_runeBytes chunk r h rest
  have hl := runeBytes_length chunk r h
  obtain ⟨b, tl, rfl, -⟩ := runeBytes_head chunk r h
  rw [List.cons_append] at hd ⊢
  rw [utf8ValidFrom.eq_def]
  simp only [hd]
  rw [if_neg (by simp only [List.length_cons] at hl ⊢; omega)]
  exact utf8ValidFrom_skip tl rest

theorem appendStringFrom_rune (chunk rest : GoString) (r : Nat) (h : RuneBytes chunk r) :
    appendStringFrom 0 (chunk ++ rest)
      = (if r = 0x2028 ∨ r = 0x2029 then [0x5C, 0x75, 0x32, 0x30, 0x32, hexDigit (r % 16)]
         else chunk) ++ appendStringFrom 0 rest := by
  have hd := decodeRune_of_runeBytes chunk r h rest
  have hl := runeBytes_length chunk r h
  obtain ⟨b, tl, rfl, hb⟩ := runeBytes_head chunk r h
  rw [List.cons_append] at hd ⊢
  rw [appendStringFrom.eq_def]
  simp only [hd]
  rw [if_neg (by omega), if_neg (by simp only [List.length_cons] at hl ⊢; omega)]
  have hskip : appendStringFrom ((b :: tl).length - 1) (tl ++ rest) = appendStringFrom 0 rest :=
    appendStringFrom_skip tl rest
  rw [hskip]
  have htake : (b :: (tl ++ rest)).take (b :: tl).length = b :: tl := by
    rw [← List.cons_append, List.take_left']
    rfl
  rw [htake]
  by_cases hsep : r = 0x2028 ∨ r = 0x2029
  · rw [if_pos hsep, if_pos hsep]
  · rw [if_neg hsep, if_neg hsep]

theorem stringLit_runeBytes (chunk rest : GoString) (r : Nat) (h : RuneBytes chunk r) :
    stringLit 0 (chunk ++ rest) = emit chunk (stringLit 0 rest) := by
  have hd := decodeRune_of_runeBytes chunk r h rest
  obtain ⟨he, -⟩ := encodeRune_of_runeBytes chunk r h
  obtain ⟨b, tl, rfl, hb⟩ := runeBytes_head chunk r h
  rw [List.cons_append] at hd ⊢
  rw [stringLit_rune b _ hb, hd]
  simp only [he]
  exact congrArg _ (stringLit_skip tl rest)

theorem hexVal_hexDigit (n : Nat) (h : n < 16) : hexVal (hexDigit n) = some n := by
  unfold hexDigit hexVal
  by_cases h10 : n < 10
  · rw [if_pos h10, if_pos (by omega)]
    congr 1
    omega
  · rw [if_neg h10, if_neg (by omega), if_pos (by omega)]
    congr 1
    omega

theorem stringLit_separator (r : Nat) (rest : GoString) (h : r = 0x2028 ∨ r = 0x2029) :
    stringLit 0 ([0x5C, 0x75, 0x32, 0x30, 0x32, hexDigit (r % 16)] ++ rest)
      = emit (encodeRune r) (stringLit 0 rest) := by
  have hr : 2 * 4096 + 0 * 256 + 2 * 16 + r % 16 = r := by omega
  have := stringLit_escape_u 0x32 0x30 0x32 (hexDigit (r % 16)) 2 0 2 (r % 16) rest
    (by decide) (by decide) (by decide) (hexVal_hexDigit _ (by omega)) (by omega)
  rw [hr] at this
  exact this

theorem stringLit_escapeByte (b : Nat) (rest : GoString) (hb : b < 0x80) :
    stringLit 0 (escapeByte b ++ rest) = emit [b] (stringLit 0 rest) := by
  unfold escapeByte
  by_cases h1 : b = 0x5C ∨ b = 0x22
  · rw [if_pos h1]
    exact stringLit_escape b b rest (by omega) (by
      unfold simpleEscape
      rw [if_pos (by omega)])
  rw [if_neg h1]
  by_cases h2 : b = 0x08
  · rw [if_pos h2, h2]
    exact stringLit_escape 0x62 0x08 rest (by decide) (by decide)
  rw [if_neg h2]
  by_cases h3 : b = 0x0C
  · rw [if_pos h3, h3]
    exact stringLit_escape 0x66 0x0C rest (by decide) (by decide)
  rw [if_neg h3]
  by_cases h4 : b = 0x0A
  · rw [if_pos h4, h4]
    exact stringLit_escape 0x6E 0x0A rest (by decide) (by decide)
  rw [if_neg h4]
  by_cases h5 : b = 0x0D
  · rw [if_pos h5, h5]
    exact stringLit_escape 0x72 0x0D rest (by decide) (by decide)
  rw [if_neg h5]
  by_cases h6 : b = 0x09
  · rw [if_pos h6, h6]
    exact stringLit_escape 0x74 0x09 rest (by decide) (by decide)
  rw [if_neg h6]
  have hval : 0 * 4096 + 0 * 256 + (b / 16) * 16 + b % 16 = b := by omega
  have := stringLit_escape_u 0x30 0x30 (hexDigit (b / 16)) (hexDigit (b % 16)) 0 0 (b / 16)
    (b % 16) rest (by decide) (by decide) (hexVal_hexDigit _ (by omega))
    (hexVal_hexDigit _ (by omega)) (by omega)
  rw [hval] at this
  have henc : encodeRune b = [b] := by
    unfold encodeRune
    rw [if_pos (by omega)]
  rw [henc] at this
  exact this

theorem htmlSafe_plain (b : Nat) (h : htmlSafe b = true) :
    b ≠ 0x22 ∧ b ≠ 0x5C ∧ 0x20 ≤ b ∧ b < 0x80 := by
  unfold htmlSafe at h
  simp only [decide_eq_true_eq] at h
  omega

/-- Reading back what `appendString` wrote between the quotes of a string of
well-formed UTF-8 gives the string. -/
theorem stringLit_appendStringFrom (n : Nat) :
    ∀ (s rest : GoString), s.length ≤ n → utf8ValidFrom 0 s = true →
      stringLit 0 (appendStringFrom 0 s ++ 0x22 :: rest) = some (s, rest) := by
  induction n with
  | zero =>
    intro s rest hlen _
    have : s = [] := List.length_eq_zero.mp (by omega)
    subst this
    rfl
  | succ n ih =>
    intro s rest hlen hv
    cases s with
    | nil => rfl
    | cons b t =>
      by_cases hb : b < 0x80
      · rw [utf8ValidFrom_ascii b t hb] at hv
        have hrec := ih t rest (by simp only [List.length_cons] at hlen; omega) hv
        rw [appendStringFrom_ascii b t hb, List.append_assoc]
        by_cases hs : htmlSafe b = true
        · obtain ⟨h1, h2, h3, h4⟩ := htmlSafe_plain b hs
          rw [if_pos hs, List.singleton_append, stringLit_plain b _ h1 h2 h3 h4, hrec]
          rfl
        · rw [if_neg hs, stringLit_escapeByte b _ hb, hrec]
          rfl
      · rcases decodeRune_cases b t (by omega) with hbad | ⟨chunk, rest0, r, hsplit, hrune⟩
        · rw [utf8ValidFrom.eq_def] at hv
          simp only [hbad] at hv
          simp at hv
        · rw [hsplit] at hv hlen ⊢
          rw [utf8ValidFrom_rune chunk rest0 r hrune] at hv
          have hl := runeBytes_length chunk r hrune
          have hrec := ih rest0 rest (by simp only [List.length_append] at hlen; omega) hv
          rw [appendStringFrom_rune chunk rest0 r hrune, List.append_assoc]
          by_cases hsep : r = 0x2028 ∨ r = 0x2029
          · rw [if_pos hsep, stringLit_separator r _ hsep,
              (encodeRune_of_runeBytes chunk r hrune).1, hrec]
            rfl
          · rw [if_neg hsep, stringLit_runeBytes chunk _ r hrune, hrec]
            rfl

/-- A string literal written by `appendString` for well-formed UTF-8 is read
back as the string. -/
theorem stringLit_appendString (s rest : GoString) (hv : utf8Valid s = true) :
    stringLit 0 (appendStringFrom 0 s ++ 0x22 :: rest) = some (s, rest) :=
  stringLit_appendStringFrom s.length s rest (Nat.le_refl _) hv


theorem skipSpace_cons (c : Nat) (t : GoString) (h : isSpace c = false) :
    skipSpace (c :: t) = c :: t := by
  rw [skipSpace.eq_def]
  simp only [h]
  rfl

theorem parseValue_string (d : Nat) (s rest : GoString) (hv : utf8Valid s = true) :
    parseValue (d + 1) (0x22 :: appendStringFrom 0 s ++ 0x22 :: rest)
      = some (JValue.str s, rest) := by
  rw [parseValue.eq_def]
  simp only [List.cons_append]
  rw [skipSpace_cons _ _ (by decide)]
  simp only
  rw [if_pos True.intro, stringLit_appendString s rest hv]
  rfl

theorem stringLit_plainName (name rest : GoString) (h : PlainName name) :
    stringLit 0 (name ++ 0x22 :: rest) = some (name, rest) := by
  have := stringLit_appendString name rest h.2
  rw [h.1] at this
  exact this

theorem parseMembers_more (pv : GoString → Option (JValue × GoString))
    (hpv : ∀ s r, utf8Valid s = true →
      pv (0x22 :: appendStringFrom 0 s ++ 0x22 :: r) = some (JValue.str s, r))
    (n : Nat) (name value rest : GoString) (hname : PlainName name)
    (hvalue : utf8Valid value = true) :
    parseMembers pv (n + 1) (memberText name value ++ 0x2C :: rest)
      = (parseMembers pv n rest).map fun p => ((name, JValue.str value) :: p.1, p.2) := by
  have h1 : memberText name value ++ 0x2C :: rest
      = 0x22 :: (name ++ 0x22 :: (0x3A :: (0x22 :: appendStringFrom 0 value
          ++ 0x22 :: (0x2C :: rest)))) := by
    simp [memberText, List.append_assoc]
  rw [h1, parseMembers.eq_def]
  simp only
  rw [skipSpace_cons _ _ (by decide)]
  simp only [stringLit_plainName name _ hname]
  rw [skipSpace_cons _ _ (by decide)]
  simp only [hpv value _ hvalue]
  rw [skipSpace_cons _ _ (by decide)]

theorem parseMembers_last (pv : GoString → Option (JValue × GoString))
    (hpv : ∀ s r, utf8Valid s = true →
      pv (0x22 :: appendStringFrom 0 s ++ 0x22 :: r) = some (JValue.str s, r))
    (n : Nat) (name value rest : GoString) (hname : PlainName name)
    (hvalue : utf8Valid value = true) :
    parseMembers pv (n + 1) (memberText name value ++ 0x7D :: rest)
      = some ([(name, JValue.str value)], rest) := by
  have h1 : memberText name value ++ 0x7D :: rest
      = 0x22 :: (name ++ 0x22 :: (0x3A :: (0x22 :: appendStringFrom 0 value
          ++ 0x22 :: (0x7D :: rest)))) := by
    simp [memberText, List.append_assoc]
  rw [h1, parseMembers.eq_def]
  simp only
  rw [skipSpace_cons _ _ (by decide)]
  simp only [stringLit_plainName name _ hname]
  rw [skipSpace_cons _ _ (by decide)]
  simp only [hpv value _ hvalue]
  rw [skipSpace_cons _ _ (by decide)]

theorem parseDocument_object (t : GoString) (members : List (GoString × JValue))
    (ht : ∃ x, t = 0x22 :: x)
    (h : parseMembers (parseValue maxNestingDepth) t.length t = some (members, [])) :
    parseDocument (0x7B :: t) = some (JValue.obj members) := by
  obtain ⟨x, rfl⟩ := ht
  unfold parseDocument firstValue
  rw [parseValue.eq_def]
  simp only
  rw [skipSpace_cons _ _ (by decide)]
  simp only
  rw [if_pos True.intro, if_neg (by decide), skipSpace_cons _ _ (by decide)]
  simp only [h]
  rfl

theorem parseValue_maxDepth_string (s r : GoString) (hv : utf8Valid s = true) :
    parseValue maxNestingDepth (0x22 :: appendStringFrom 0 s ++ 0x22 :: r)
      = some (JValue.str s, r) :=
  parseValue_string 9999 s r hv

theorem memberText_head (name value : GoString) :
    ∃ x, memberText name value = 0x22 :: x := ⟨_, rfl⟩

theorem bodyBytes_fixJSON (req : FixJSONRequest) :
    bodyBytes (some (Payload.fixJSON req))
      = some (0x7B :: (memberText (ascii "json_to_fix") req.JSONToFix ++ [0x7D])) := by
  have h1 : ascii "\x7b\"json_to_fix\":" = 0x7B :: 0x22 :: ascii "json_to_fix" ++ [0x22, 0x3A] := by
    decide
  have h2 : ascii "\x7d" = [0x7D] := by decide
  simp [bodyBytes, jsonMarshal, h1, h2, memberText, appendString]

theorem bodyBytes_validate (req : ValidateRequest) :
    bodyBytes (some (Payload.validate req))
      = some (0x7B :: (memberText (ascii "open_api_spec") req.OpenAPISpec
          ++ 0x2C :: (memberText (ascii "json_string") req.JSONString
          ++ 0x2C :: (memberText (ascii "operation_id") req.OperationID ++ [0x7D])))) := by
  have h1 : ascii "\x7b\"open_api_spec\":"
      = 0x7B :: 0x22 :: ascii "open_api_spec" ++ [0x22, 0x3A] := by decide
  have h2 : ascii ",\"json_string\":" = 0x2C :: 0x22 :: ascii "json_string" ++ [0x22, 0x3A] := by
    decide
  have h3 : ascii ",\"operation_id\":" = 0x2C :: 0x22 :: ascii "operation_id" ++ [0x22, 0x3A] := by
    decide
  have h4 : ascii "\x7d" = [0x7D] := by decide
  simp [bodyBytes, jsonMarshal, h1, h2, h3, h4, memberText, appendString]

theorem parseDocument_fixJSON (req : FixJSONRequest) (hv : utf8Valid req.JSONToFix = true) :
    parseDocument (0x7B :: (memberText (ascii "json_to_fix") req.JSONToFix ++ [0x7D]))
      = some (JValue.obj [(ascii "json_to_fix", JValue.str req.JSONToFix)]) := by
  apply parseDocument_object
  · obtain ⟨x, hx⟩ := memberText_head (ascii "json_to_fix") req.JSONToFix
    exact ⟨x ++ [0x7D], by rw [hx]; rfl⟩
  · obtain ⟨n, hn⟩ : ∃ n, (memberText (ascii "json_to_fix") req.JSONToFix ++ [0x7D]).length
        = n + 1 := ⟨_, List.length_append _ _⟩
    rw [hn]
    exact parseMembers_last _ parseValue_maxDepth_string n _ _ [] ⟨by decide, by decide⟩ hv

theorem parseDocument_validate (req : ValidateRequest)
    (h1 : utf8Valid req.OpenAPISpec = true) (h2 : utf8Valid req.JSONString = true)
    (h3 : utf8Valid req.OperationID = true) :
    parseDocument (0x7B :: (memberText (ascii "open_api_spec") req.OpenAPISpec
          ++ 0x2C :: (memberText (ascii "json_string") req.JSONString
          ++ 0x2C :: (memberText (ascii "operation_id") req.OperationID ++ [0x7D]))))
      = some (JValue.obj [(ascii "open_api_spec", JValue.str req.OpenAPISpec),
          (ascii "json_string", JValue.str req.JSONString),
          (ascii "operation_id", JValue.str req.OperationID)]) := by
  apply parseDocument_object
  · obtain ⟨x, hx⟩ := memberText_head (ascii "open_api_spec") req.OpenAPISpec
    exact ⟨x ++ _, by rw [hx]; rfl⟩
  · obtain ⟨n, hn⟩ : ∃ n, (memberText (ascii "open_api_spec") req.OpenAPISpec
          ++ 0x2C :: (memberText (ascii "json_string") req.JSONString
          ++ 0x2C :: (memberText (ascii "operation_id") req.OperationID ++ [0x7D]))).length
        = n + 3 := by
      refine ⟨(memberText (ascii "open_api_spec") req.OpenAPISpec).length
        + (memberText (ascii "json_string") req.JSONString).length
        + (memberText (ascii "operation_id") req.OperationID).length, ?_⟩
      simp only [List.length_append, List.length_cons, List.length_nil]
      omega
    rw [hn, parseMembers_more _ parseValue_maxDepth_string _ _ _ _ ⟨by decide, by decide⟩ h1,
      parseMembers_more _ parseValue_maxDepth_string _ _ _ _ ⟨by decide, by decide⟩ h2,
      parseMembers_last _ parseValue_maxDepth_string _ _ _ [] ⟨by decide, by decide⟩ h3]
    rfl

theorem expectedRequest_contentType (c : Client) (cx : Context) (method path : GoString)
    (body : Option GoString) (requireAuth : Bool) :
    (expectedRequest c cx method path body requireAuth).Header.get (ascii "Content-Type")
      = if body.isSome = true then some (ascii "application/json") else none := by
  have hne : ascii "Authorization" ≠ ascii "Content-Type" := by decide
  unfold expectedRequest Header.get
  by_cases hb : body.isSome = true <;> by_cases ha : requireAuth = true ∧ c.apiKey ≠ []
    <;> simp [hb, ha, hne, List.find?]

/-- C8, as the claim states it, fails: the request `FixJSON` hands to the
transport for the one-byte string FF has a body whose member `json_to_fix`
decodes to the three bytes EF BF BD and not to the argument. -/
theorem request_body_replaces_ill_formed_bytes :
    ∃ body,
      Event.send
          (expectedRequest (NewClient (ascii "lg-m-key") []) { id := 0 } (ascii "POST")
            (ascii "/repair/fix-json") (some body) true)
        ∈ (FixJSON (cannedWorld 200 { data := [], readErr := none })
            (NewClient (ascii "lg-m-key") []) (some { id := 0 }) [0xFF]).trace
      ∧ parseDocument body
          = some (JValue.obj [(ascii "json_to_fix", JValue.str [0xEF, 0xBF, 0xBD])])
      ∧ ([0xEF, 0xBF, 0xBD] : GoString) ≠ [0xFF] :=
  ⟨0x7B :: (memberText (ascii "json_to_fix") [0xFF] ++ [0x7D]), by decide, by rfl, by decide⟩

/-- C8, amended: every request `Ping` hands to the transport is a GET to the
base URL followed by "/ping", without body and without Content-Type; every
request `ValidateJSON` (`FixJSON`) hands to it is a POST to the base URL
followed by "/validator/validate" ("/repair/fix-json") with Content-Type
application/json and a body that, when the string arguments are well-formed
UTF-8, is a JSON object whose members `open_api_spec`, `json_string` and
`operation_id` (`json_to_fix`) decode back to exactly the arguments.  Building
the body never fails, and the request is handed to the transport of a
client whose HTTP client is not nil whenever the context is not nil and the
URL parses. -/
theorem operations_build_their_requests (w : World) (c : Client) (ctx : Option Context) :
    (∀ req, Event.send req ∈ (Ping w c ctx).trace →
      req.Method = ascii "GET" ∧ req.URL = c.baseURL ++ ascii "/ping" ∧ req.Body = none
      ∧ req.Header.get (ascii "Content-Type") = none)
    ∧ (∀ (openAPISpec jsonString operationID : GoString) (req : Request),
      Event.send req ∈ (ValidateJSON w c ctx openAPISpec jsonString operationID).trace →
      req.Method = ascii "POST" ∧ req.URL = c.baseURL ++ ascii "/validator/validate"
      ∧ req.Header.get (ascii "Content-Type") = some (ascii "application/json")
      ∧ ∃ body, req.Body = some body
        ∧ (utf8Valid openAPISpec = true → utf8Valid jsonString = true →
            utf8Valid operationID = true →
            parseDocument body = some (JValue.obj
              [(ascii "open_api_spec", JValue.str openAPISpec),
               (ascii "json_string", JValue.str jsonString),
               (ascii "operation_id", JValue.str operationID)])))
    ∧ (∀ (jsonToFix : GoString) (req : Request),
      Event.send req ∈ (FixJSON w c ctx jsonToFix).trace →
      req.Method = ascii "POST" ∧ req.URL = c.baseURL ++ ascii "/repair/fix-json"
      ∧ req.Header.get (ascii "Content-Type") = some (ascii "application/json")
      ∧ ∃ body, req.Body = some body
        ∧ (utf8Valid jsonToFix = true →
            parseDocument body
              = some (JValue.obj [(ascii "json_to_fix", JValue.str jsonToFix)])))
    ∧ (∀ p : Payload, ∃ b, jsonMarshal p = Except.ok b)
    ∧ (ctx ≠ none →
      (w.urlParses (c.baseURL ++ ascii "/ping") = true →
        ∃ req, Event.send req ∈ (Ping w c ctx).trace)
      ∧ (w.urlParses (c.baseURL ++ ascii "/validator/validate") = true →
        ∀ openAPISpec jsonString operationID : GoString,
          ∃ req, Event.send req ∈ (ValidateJSON w c ctx openAPISpec jsonString operationID).trace)
      ∧ (w.urlParses (c.baseURL ++ ascii "/repair/fix-json") = true →
        ∀ jsonToFix : GoString, ∃ req, Event.send req ∈ (FixJSON w c ctx jsonToFix).trace)) := by
  refine ⟨?_, ?_, ?_, jsonMarshal_ok, ?_⟩
  · intro req hsent
    rw [(Ping_eq w c ctx).1] at hsent
    obtain ⟨cx, -, -, rfl⟩ := doRequest_sent w c ctx _ _ _ _ _ req hsent
    exact ⟨rfl, rfl, rfl, by rw [expectedRequest_contentType]; rfl⟩
  · intro s d o req hsent
    rw [(ValidateJSON_eq w c ctx s d o).1] at hsent
    obtain ⟨cx, -, -, rfl⟩ := doRequest_sent w c ctx _ _ _ _ _ req hsent
    refine ⟨rfl, rfl, ?_, _, bodyBytes_validate _, ?_⟩
    · rw [expectedRequest_contentType, bodyBytes_validate]
      rfl
    · intro h1 h2 h3
      exact parseDocument_validate { OpenAPISpec := s, JSONString := d, OperationID := o } h1 h2 h3
  · intro s req hsent
    rw [(FixJSON_eq w c ctx s).1] at hsent
    obtain ⟨cx, -, -, rfl⟩ := doRequest_sent w c ctx _ _ _ _ _ req hsent
    refine ⟨rfl, rfl, ?_, _, bodyBytes_fixJSON _, ?_⟩
    · rw [expectedRequest_contentType, bodyBytes_fixJSON]
      rfl
    · intro h1
      exact parseDocument_fixJSON { JSONToFix := s } h1
  · intro hctx
    obtain ⟨cx, rfl⟩ := Option.ne_none_iff_exists'.mp hctx
    refine ⟨fun hu => ⟨expectedRequest c cx (ascii "GET") (ascii "/ping") (bodyBytes none) false,
        ?_⟩,
      fun hu s d o => ⟨expectedRequest c cx (ascii "POST") (ascii "/validator/validate")
        (bodyBytes (some (Payload.validate { OpenAPISpec := s, JSONString := d,
                                             OperationID := o }))) true, ?_⟩,
      fun hu s => ⟨expectedRequest c cx (ascii "POST") (ascii "/repair/fix-json")
        (bodyBytes (some (Payload.fixJSON { JSONToFix := s }))) true, ?_⟩⟩
    · rw [(Ping_eq w c (some cx)).1]
      exact doRequest_sends w c cx _ _ _ _ _ (by decide) hu
    · rw [(ValidateJSON_eq w c (some cx) s d o).1]
      exact doRequest_sends w c cx _ _ _ _ _ (by decide) hu
    · rw [(FixJSON_eq w c (some cx) s).1]
      exact doRequest_sends w c cx _ _ _ _ _ (by decide) hu

theorem operations_build_their_requests_witness :
    (∃ body,
      (expectedRequest (NewClient (ascii "lg-m-key") [Setting.toOption (Setting.baseURL (ascii "http://localhost:8080"))])
          { id := 0 } (ascii "POST") (ascii "/repair/fix-json")
          (bodyBytes (some (Payload.fixJSON { JSONToFix := [0x7B, 0x22, 0xC3, 0xA9, 0x0A] })))
          true).Body = some body
      ∧ (utf8Valid [0x7B, 0x22, 0xC3, 0xA9, 0x0A] = true →
          parseDocument body
            = some (JValue.obj [(ascii "json_to_fix", JValue.str [0x7B, 0x22, 0xC3, 0xA9, 0x0A])])))
    ∧ ∃ req, Event.send req ∈ (Ping offlineWorld
        (NewClient (ascii "lg-m-key") [Setting.toOption (Setting.baseURL (ascii "http://localhost:8080"))])
        (some { id := 0 })).trace :=
  ⟨(((operations_build_their_requests offlineWorld
      (NewClient (ascii "lg-m-key") [Setting.toOption (Setting.baseURL (ascii "http://localhost:8080"))])
      (some { id := 0 })).2.2.1 [0x7B, 0x22, 0xC3, 0xA9, 0x0A]
      (expectedRequest (NewClient (ascii "lg-m-key") [Setting.toOption (Setting.baseURL (ascii "http://localhost:8080"))])
          { id := 0 } (ascii "POST") (ascii "/repair/fix-json")
          (bodyBytes (some (Payload.fixJSON { JSONToFix := [0x7B, 0x22, 0xC3, 0xA9, 0x0A] })))
          true) (by decide)).2.2.2),
   ((operations_build_their_requests offlineWorld
      (NewClient (ascii "lg-m-key") [Setting.toOption (Setting.baseURL (ascii "http://localhost:8080"))])
      (some { id := 0 })).2.2.2.2 (by decide)).1 rfl⟩



theorem parseMembers_step_more (pv : GoString → Option (JValue × GoString)) (n : Nat)
    (name text rest : GoString) (v : JValue) (hname : PlainName name)
    (hpv : pv (text ++ 0x2C :: rest) = some (v, 0x2C :: rest)) :
    parseMembers pv (n + 1) (0x22 :: (name ++ 0x22 :: 0x3A :: (text ++ 0x2C :: rest)))
      = (parseMembers pv n rest).map fun p => ((name, v) :: p.1, p.2) := by
  rw [parseMembers.eq_def]
  simp only
  rw [skipSpace_cons _ _ (by decide)]
  simp only [stringLit_plainName name _ hname]
  rw [skipSpace_cons _ _ (by decide)]
  simp only [hpv]
  rw [skipSpace_cons _ _ (by decide)]

theorem parseMembers_step_last (pv : GoString → Option (JValue × GoString)) (n : Nat)
    (name text rest : GoString) (v : JValue) (hname : PlainName name)
    (hpv : pv (text ++ 0x7D :: rest) = some (v, 0x7D :: rest)) :
    parseMembers pv (n + 1) (0x22 :: (name ++ 0x22 :: 0x3A :: (text ++ 0x7D :: rest)))
      = some ([(name, v)], rest) := by
  rw [parseMembers.eq_def]
  simp only
  rw [skipSpace_cons _ _ (by decide)]
  simp only [stringLit_plainName name _ hname]
  rw [skipSpace_cons _ _ (by decide)]
  simp only [hpv]
  rw [skipSpace_cons _ _ (by decide)]

theorem parseElems_step_more (pv : GoString → Option (JValue × GoString)) (n : Nat)
    (text rest : GoString) (v : JValue)
    (hpv : pv (text ++ 0x2C :: rest) = some (v, 0x2C :: rest)) :
    parseElems pv (n + 1) (text ++ 0x2C :: rest)
      = (parseElems pv n rest).map fun p => (v :: p.1, p.2) := by
  rw [parseElems.eq_def]
  simp only [hpv]
  rw [skipSpace_cons _ _ (by decide)]

theorem parseElems_step_last (pv : GoString → Option (JValue × GoString)) (n : Nat)
    (text rest : GoString) (v : JValue)
    (hpv : pv (text ++ 0x5D :: rest) = some (v, 0x5D :: rest)) :
    parseElems pv (n + 1) (text ++ 0x5D :: rest) = some ([v], rest) := by
  rw [parseElems.eq_def]
  simp only [hpv]
  rw [skipSpace_cons _ _ (by decide)]

theorem parseValue_object (d : Nat) (x : GoString) :
    parseValue (d + 2) (0x7B :: 0x22 :: x)
      = (parseMembers (parseValue (d + 1)) (0x22 :: x).length (0x22 :: x)).map
          fun p => (JValue.obj p.1, p.2) := by
  rw [parseValue.eq_def]
  simp only
  rw [skipSpace_cons _ _ (by decide)]
  simp only
  rw [if_pos True.intro, if_neg (by omega), skipSpace_cons _ _ (by decide)]

theorem parseValue_bool (d : Nat) (b : Bool) (c : Nat) (rest : GoString) :
    parseValue (d + 1) (encodeBool b ++ c :: rest) = some (JValue.bool b, c :: rest) := by
  cases b
  · show parseValue (d + 1) (0x66 :: 0x61 :: 0x6C :: 0x73 :: 0x65 :: c :: rest) = _
    rw [parseValue.eq_def]
    simp only
    rw [skipSpace_cons _ _ (by decide)]
    simp
  · show parseValue (d + 1) (0x74 :: 0x72 :: 0x75 :: 0x65 :: c :: rest) = _
    rw [parseValue.eq_def]
    simp only
    rw [skipSpace_cons _ _ (by decide)]
    simp

theorem parseValue_string_object (d : Nat) (name value rest : GoString)
    (hname : PlainName name) (hv : utf8Valid value = true) :
    parseValue (d + 2) (0x7B :: (memberText name value ++ 0x7D :: rest))
      = some (JValue.obj [(name, JValue.str value)], rest) := by
  obtain ⟨x, hx⟩ := memberText_head name value
  have hshape : 0x7B :: (memberText name value ++ 0x7D :: rest)
      = 0x7B :: 0x22 :: (x ++ 0x7D :: rest) := by rw [hx]; rfl
  rw [hshape, parseValue_object]
  have hback : 0x22 :: (x ++ 0x7D :: rest) = memberText name value ++ 0x7D :: rest := by
    rw [hx]; rfl
  rw [hback]
  obtain ⟨n, hn⟩ : ∃ n, (memberText name value ++ 0x7D :: rest).length = n + 1 :=
    ⟨(memberText name value).length + rest.length, by
      simp only [List.length_append, List.length_cons]; omega⟩
  rw [hn, parseMembers_last _ (fun s r h => parseValue_string d s r h) n _ _ _ hname hv]
  rfl

theorem parseValue_validationError (d : Nat) (e : ValidationError) (rest : GoString)
    (hf : utf8Valid e.Field = true) (he : utf8Valid e.Error = true) :
    parseValue (d + 2) (e.encode ++ rest) = some (e.toJSON, rest) := by
  obtain ⟨x, hx⟩ := memberText_head (ascii "field") e.Field
  have hshape : e.encode ++ rest
      = 0x7B :: 0x22 :: (x ++ 0x2C :: (memberText (ascii "error") e.Error ++ 0x7D :: rest)) := by
    simp [ValidationError.encode, hx, List.append_assoc]
  rw [hshape, parseValue_object]
  have hback : 0x22 :: (x ++ 0x2C :: (memberText (ascii "error") e.Error ++ 0x7D :: rest))
      = memberText (ascii "field") e.Field
          ++ 0x2C :: (memberText (ascii "error") e.Error ++ 0x7D :: rest) := by
    rw [hx]; rfl
  rw [hback]
  obtain ⟨n, hn⟩ : ∃ n, (memberText (ascii "field") e.Field
      ++ 0x2C :: (memberText (ascii "error") e.Error ++ 0x7D :: rest)).length = n + 2 :=
    ⟨(memberText (ascii "field") e.Field).length + (memberText (ascii "error") e.Error).length
      + rest.length, by simp only [List.length_append, List.length_cons]; omega⟩
  rw [hn, parseMembers_more _ (fun s r h => parseValue_string d s r h) _ _ _ _
      ⟨by decide, by decide⟩ hf,
    parseMembers_last _ (fun s r h => parseValue_string d s r h) _ _ _ _
      ⟨by decide, by decide⟩ he]
  rfl

theorem encodeErrors_cons (e : ValidationError) (es : List ValidationError) (rest : GoString) :
    ∃ x, encodeErrors (e :: es) ++ rest = 0x7B :: x := by
  cases es with
  | nil => exact ⟨_, rfl⟩
  | cons e2 es => exact ⟨_, rfl⟩

theorem parseElems_encodeErrors (d : Nat) (es : List ValidationError) :
    ∀ (n : Nat) (rest : GoString), es ≠ [] → es.length ≤ n →
      (∀ e ∈ es, utf8Valid e.Field = true ∧ utf8Valid e.Error = true) →
      parseElems (parseValue (d + 2)) n (encodeErrors es ++ 0x5D :: rest)
        = some (es.map ValidationError.toJSON, rest) := by
  induction es with
  | nil => intro n rest h; exact absurd rfl h
  | cons e es ih =>
    intro n rest _ hn hvalid
    obtain ⟨hf, he⟩ := hvalid e (List.mem_cons_self _ _)
    obtain ⟨k, rfl⟩ : ∃ k, n = k + 1 := ⟨n - 1, by simp only [List.length_cons] at hn; omega⟩
    cases es with
    | nil =>
      show parseElems _ (k + 1) (e.encode ++ 0x5D :: rest) = _
      rw [parseElems_step_last _ k _ _ _ (parseValue_validationError d e _ hf he)]
      rfl
    | cons e2 es2 =>
      have hshape : encodeErrors (e :: e2 :: es2) ++ 0x5D :: rest
          = e.encode ++ 0x2C :: (encodeErrors (e2 :: es2) ++ 0x5D :: rest) := by
        simp [encodeErrors, List.append_assoc]
      rw [hshape, parseElems_step_more _ k _ _ _ (parseValue_validationError d e _ hf he),
        ih k rest (by simp) (by simp only [List.length_cons] at hn ⊢; omega)
          (fun e' he' => hvalid e' (List.mem_cons_of_mem _ he'))]
      rfl

theorem encodeErrors_length (es : List ValidationError) : es.length ≤ (encodeErrors es).length := by
  induction es with
  | nil => exact Nat.le_refl _
  | cons e es ih =>
    cases es with
    | nil => simp [encodeErrors, ValidationError.encode]
    | cons e2 es2 =>
      simp only [encodeErrors, List.length_append, List.length_cons] at ih ⊢
      omega

theorem parseValue_errors (d : Nat) (es : List ValidationError) (rest : GoString)
    (hvalid : ∀ e ∈ es, utf8Valid e.Field = true ∧ utf8Valid e.Error = true) :
    parseValue (d + 3) (0x5B :: (encodeErrors es ++ 0x5D :: rest))
      = some (JValue.arr (es.map ValidationError.toJSON), rest) := by
  rw [parseValue.eq_def]
  simp only
  rw [skipSpace_cons _ _ (by decide)]
  simp only
  rw [if_neg (by decide), if_pos True.intro, if_neg (by omega)]
  cases es with
  | nil =>
    simp only [encodeErrors, List.nil_append]
    rw [skipSpace_cons _ _ (by decide)]
    rfl
  | cons e es =>
    obtain ⟨x, hx⟩ := encodeErrors_cons e es (0x5D :: rest)
    have hlen := encodeErrors_length (e :: es)
    rw [hx, skipSpace_cons _ _ (by decide)]
    simp only
    rw [← hx, parseElems_encodeErrors d (e :: es) _ rest (by simp)
      (by simp only [List.length_append, List.length_cons] at hlen ⊢; omega) hvalid]
    rfl

theorem parseValue_null (d : Nat) (c : Nat) (rest : GoString) :
    parseValue (d + 1) (ascii "null" ++ c :: rest) = some (JValue.null, c :: rest) := by
  show parseValue (d + 1) (0x6E :: 0x75 :: 0x6C :: 0x6C :: c :: rest) = _
  rw [parseValue.eq_def]
  simp only
  rw [skipSpace_cons _ _ (by decide)]
  simp

theorem parseValue_slice (d : Nat) (s : ErrorSlice) (c : Nat) (rest : GoString)
    (hvalid : ∀ e ∈ s.elems, utf8Valid e.Field = true ∧ utf8Valid e.Error = true) :
    parseValue (d + 3) (s.encode ++ c :: rest) = some (s.toJSON, c :: rest) := by
  cases s with
  | nil => exact parseValue_null (d + 2) c rest
  | slice es sp =>
    have := parseValue_errors d es (c :: rest) hvalid
    simpa [ErrorSlice.encode, ErrorSlice.toJSON, List.append_assoc] using this

theorem parseValue_validateResponse (d : Nat) (v : ValidateResponse) (rest : GoString)
    (hvalid : ∀ e ∈ v.Errors.elems, utf8Valid e.Field = true ∧ utf8Valid e.Error = true) :
    parseValue (d + 4) (v.encode ++ rest) = some (v.toJSON, rest) := by
  have hshape : v.encode ++ rest
      = 0x7B :: 0x22 :: (ascii "is_valid" ++ 0x22 :: 0x3A :: (encodeBool v.IsValid
          ++ 0x2C :: (0x22 :: (ascii "errors" ++ 0x22 :: 0x3A ::
            (v.Errors.encode ++ 0x7D :: rest))))) := by
    simp [ValidateResponse.encode, List.append_assoc]
  rw [hshape, parseValue_object]
  obtain ⟨n, hn⟩ : ∃ n, (0x22 :: (ascii "is_valid" ++ 0x22 :: 0x3A :: (encodeBool v.IsValid
          ++ 0x2C :: (0x22 :: (ascii "errors" ++ 0x22 :: 0x3A ::
            (v.Errors.encode ++ 0x7D :: rest)))))).length
        = n + 2 :=
    ⟨(ascii "is_valid" ++ 0x22 :: 0x3A :: (encodeBool v.IsValid
          ++ 0x2C :: (0x22 :: (ascii "errors" ++ 0x22 :: 0x3A ::
            (v.Errors.encode ++ 0x7D :: rest))))).length - 1,
      by simp only [List.length_append, List.length_cons]; omega⟩
  rw [hn, parseMembers_step_more _ _ _ _ _ (JValue.bool v.IsValid) ⟨by decide, by decide⟩
      (parseValue_bool _ _ _ _),
    parseMembers_step_last _ _ _ _ _ v.Errors.toJSON
      ⟨by decide, by decide⟩ (parseValue_slice d v.Errors 0x7D rest hvalid)]
  rfl

/-- Reading the text written for a response gives the JSON value that encodes
it, whatever follows the text and however the stream ends. -/
theorem readValue_encode (rest : GoString) (readErr : Option GoString) :
    (∀ v : PingResponse, utf8Valid v.Message = true →
      readValue { data := v.encode ++ rest, readErr := readErr } = some v.toJSON)
    ∧ (∀ v : ValidateResponse,
      (∀ e ∈ v.Errors.elems, utf8Valid e.Field = true ∧ utf8Valid e.Error = true) →
      readValue { data := v.encode ++ rest, readErr := readErr } = some v.toJSON)
    ∧ (∀ v : FixJSONResponse, utf8Valid v.FixedJSON = true →
      readValue { data := v.encode ++ rest, readErr := readErr } = some v.toJSON) := by
  refine ⟨fun v hv => ?_, fun v hv => ?_, fun v hv => ?_⟩
  · have h : firstValue (v.encode ++ rest) = some (v.toJSON, rest) := by
      have := parseValue_string_object 9999 (ascii "message") v.Message rest
        ⟨by decide, by decide⟩ hv
      simpa [PingResponse.encode, List.append_assoc] using this
    unfold readValue
    simp only [h]
    rfl
  · have h : firstValue (v.encode ++ rest) = some (v.toJSON, rest) :=
      parseValue_validateResponse 9997 v rest hv
    unfold readValue
    simp only [h]
    rfl
  · have h : firstValue (v.encode ++ rest) = some (v.toJSON, rest) := by
      have := parseValue_string_object 9999 (ascii "fixed_json") v.FixedJSON rest
        ⟨by decide, by decide⟩ hv
      simpa [FixJSONResponse.encode, List.append_assoc] using this
    unfold readValue
    simp only [h]
    rfl

theorem doRequest_answered {α : Type} [Decodable α] (w : World) (c : Client) (cx : Context)
    (method path : GoString) (body : Option Payload) (dest : α) (requireAuth : Bool)
    (resp : Response) (v : JValue)
    (hm : validMethod (if method = [] then ascii "GET" else method) = true)
    (hu : w.urlParses (c.baseURL ++ path) = true)
    (hresp : w.Do c.httpClient (expectedRequest c cx method path (bodyBytes body) requireAuth)
      = Except.ok resp)
    (h2xx : 200 ≤ resp.StatusCode ∧ resp.StatusCode < 300)
    (hbody : readValue resp.Body = some v) :
    (doRequest w c (some cx) method path body (some dest) requireAuth).err
        = (Decodable.store dest v).2.map (fun je =>
            GoError.wrapped (ascii "failed to decode response") (GoError.json je))
    ∧ (doRequest w c (some cx) method path body (some dest) requireAuth).result
        = some (Decodable.store dest v).1 :=
  doRequest_decoded w c (some cx) method path body dest requireAuth _ resp v h2xx hresp
    (doRequest_sends w c cx method path body (some dest) requireAuth hm hu) hbody

/-- C6, as the claim states it, fails: for the `PingResponse` whose Message is
the one byte FF, the text `json.Marshal` writes holds the three bytes EF BF BD
in its place, and `Ping`, answered with status 200 and that text as the body,
returns a nil error and a result whose Message is EF BF BD, not FF. -/
theorem ill_formed_string_is_not_returned_unaltered :
    PingResponse.encode { Message := [0xFF] }
        = ascii "\x7b\"message\":\"" ++ [0xEF, 0xBF, 0xBD] ++ ascii "\"\x7d"
    ∧ (Ping (cannedWorld 200
          { data := PingResponse.encode { Message := [0xFF] }, readErr := none })
        (NewClient (ascii "lg-m-key") []) (some { id := 0 })).err = none
    ∧ (Ping (cannedWorld 200
          { data := PingResponse.encode { Message := [0xFF] }, readErr := none })
        (NewClient (ascii "lg-m-key") []) (some { id := 0 })).value
        = some { Message := [0xEF, 0xBF, 0xBD] }
    ∧ (Ping (cannedWorld 200
          { data := PingResponse.encode { Message := [0xFF] }, readErr := none })
        (NewClient (ascii "lg-m-key") []) (some { id := 0 })).value
        ≠ some { Message := [0xFF] } := by
  decide

/-- C6, amended: for every value `v` of a response type whose strings are
well-formed UTF-8, when the context is not nil, the URL of the operation
parses and the transport answers the request of the operation with a status
in [200,300) and a body that starts with the text `json.Marshal` writes for
`v`, the operation returns a nil error and a result equal to `v` field for
field: `Message` and `FixedJSON` are the strings of `v`, `IsValid` is the flag
of `v`, and `Errors` has the elements of `v.Errors`, as many and in the same
order, and is nil exactly when `v.Errors` is. -/
theorem success_body_decodes_to_equal_result (w : World) (c : Client) (cx : Context)
    (resp : Response) (rest : GoString)
    (h2xx : 200 ≤ resp.StatusCode ∧ resp.StatusCode < 300) :
    (∀ v : PingResponse, utf8Valid v.Message = true →
      w.urlParses (c.baseURL ++ ascii "/ping") = true →
      w.Do c.httpClient (expectedRequest c cx (ascii "GET") (ascii "/ping") none false)
        = Except.ok resp →
      resp.Body.data = v.encode ++ rest →
      (Ping w c (some cx)).err = none ∧ (Ping w c (some cx)).value = some v)
    ∧ (∀ (v : ValidateResponse) (openAPISpec jsonString operationID : GoString),
      (∀ e ∈ v.Errors.elems, utf8Valid e.Field = true ∧ utf8Valid e.Error = true) →
      w.urlParses (c.baseURL ++ ascii "/validator/validate") = true →
      w.Do c.httpClient (expectedRequest c cx (ascii "POST") (ascii "/validator/validate")
          (bodyBytes (some (Payload.validate
            { OpenAPISpec := openAPISpec, JSONString := jsonString,
              OperationID := operationID }))) true)
        = Except.ok resp →
      resp.Body.data = v.encode ++ rest →
      (ValidateJSON w c (some cx) openAPISpec jsonString operationID).err = none
      ∧ ∃ r, (ValidateJSON w c (some cx) openAPISpec jsonString operationID).value = some r
          ∧ r.IsValid = v.IsValid ∧ r.Errors.elems = v.Errors.elems
          ∧ r.Errors.elems.length = v.Errors.elems.length
          ∧ r.Errors.isNil = v.Errors.isNil)
    ∧ (∀ (v : FixJSONResponse) (jsonToFix : GoString), utf8Valid v.FixedJSON = true →
      w.urlParses (c.baseURL ++ ascii "/repair/fix-json") = true →
      w.Do c.httpClient (expectedRequest c cx (ascii "POST") (ascii "/repair/fix-json")
          (bodyBytes (some (Payload.fixJSON { JSONToFix := jsonToFix }))) true)
        = Except.ok resp →
      resp.Body.data = v.encode ++ rest →
      (FixJSON w c (some cx) jsonToFix).err = none
      ∧ (FixJSON w c (some cx) jsonToFix).value = some v) := by
  refine ⟨fun v hv hu hresp hdata => ?_, fun v s d o hv hu hresp hdata => ?_,
    fun v s hv hu hresp hdata => ?_⟩
  · obtain ⟨-, he, -, hval⟩ := Ping_eq w c (some cx)
    have hread := (readValue_encode rest resp.Body.readErr).1 v hv
    rw [← hdata] at hread
    obtain ⟨h1, h2⟩ := doRequest_answered w c cx (ascii "GET") (ascii "/ping") none
      ({ Message := [] } : PingResponse) false resp v.toJSON (by decide) hu hresp h2xx hread
    rw [store_toJSON_PingResponse] at h1 h2
    rw [← he] at h1
    exact ⟨h1, by rw [hval h1, h2]⟩
  · obtain ⟨-, he, -, hval⟩ := ValidateJSON_eq w c (some cx) s d o
    have hread := (readValue_encode rest resp.Body.readErr).2.1 v hv
    rw [← hdata] at hread
    obtain ⟨h1, h2⟩ := doRequest_answered w c cx (ascii "POST") (ascii "/validator/validate")
      (some (Payload.validate { OpenAPISpec := s, JSONString := d, OperationID := o }))
      ({ IsValid := false, Errors := ErrorSlice.nil } : ValidateResponse) true resp v.toJSON
      (by decide) hu hresp h2xx hread
    obtain ⟨k1, k2, k3, k4⟩ := store_toJSON_ValidateResponse
      { IsValid := false, Errors := ErrorSlice.nil } v
    rw [k4] at h1
    rw [← he] at h1
    exact ⟨h1, _, by rw [hval h1, h2], k1, k2, by rw [k2], k3⟩
  · obtain ⟨-, he, -, hval⟩ := FixJSON_eq w c (some cx) s
    have hread := (readValue_encode rest resp.Body.readErr).2.2 v hv
    rw [← hdata] at hread
    obtain ⟨h1, h2⟩ := doRequest_answered w c cx (ascii "POST") (ascii "/repair/fix-json")
      (some (Payload.fixJSON { JSONToFix := s }))
      ({ FixedJSON := [] } : FixJSONResponse) true resp v.toJSON (by decide) hu hresp h2xx hread
    rw [store_toJSON_FixJSONResponse] at h1 h2
    rw [← he] at h1
    exact ⟨h1, by rw [hval h1, h2]⟩

theorem success_body_decodes_to_equal_result_witness :
    ((Ping
        (cannedWorld 200
          { data := PingResponse.encode { Message := ascii "pong <ok>" } ++ ascii "\n",
            readErr := none })
        (NewClient (ascii "lg-m-key") []) (some { id := 0 })).err = none
      ∧ (Ping
        (cannedWorld 200
          { data := PingResponse.encode { Message := ascii "pong <ok>" } ++ ascii "\n",
            readErr := none })
        (NewClient (ascii "lg-m-key") []) (some { id := 0 })).value
        = some { Message := ascii "pong <ok>" })
    ∧ ((ValidateJSON
        (cannedWorld 200
          { data := ValidateResponse.encode
              { IsValid := false,
                Errors := ErrorSlice.slice
                  [{ Field := ascii "age", Error := ascii "must be > 0" },
                   { Field := [0xC3, 0xA9], Error := [] }] [] },
            readErr := none })
        (NewClient (ascii "lg-m-key") []) (some { id := 0 }) (ascii "spec") (ascii "doc")
        (ascii "op")).err = none
      ∧ ∃ r, (ValidateJSON
        (cannedWorld 200
          { data := ValidateResponse.encode
              { IsValid := false,
                Errors := ErrorSlice.slice
                  [{ Field := ascii "age", Error := ascii "must be > 0" },
                   { Field := [0xC3, 0xA9], Error := [] }] [] },
            readErr := none })
        (NewClient (ascii "lg-m-key") []) (some { id := 0 }) (ascii "spec") (ascii "doc")
        (ascii "op")).value = some r
        ∧ r.IsValid = false
        ∧ r.Errors.elems = [{ Field := ascii "age", Error := ascii "must be > 0" },
                            { Field := [0xC3, 0xA9], Error := [] }]
        ∧ r.Errors.elems.length = 2
        ∧ r.Errors.isNil = false)
    ∧ ((ValidateJSON
        (cannedWorld 200
          { data := ValidateResponse.encode { IsValid := true, Errors := ErrorSlice.nil },
            readErr := none })
        (NewClient (ascii "lg-m-key") []) (some { id := 0 }) (ascii "spec") (ascii "doc")
        (ascii "op")).err = none
      ∧ ∃ r, (ValidateJSON
        (cannedWorld 200
          { data := ValidateResponse.encode { IsValid := true, Errors := ErrorSlice.nil },
            readErr := none })
        (NewClient (ascii "lg-m-key") []) (some { id := 0 }) (ascii "spec") (ascii "doc")
        (ascii "op")).value = some r
        ∧ r.IsValid = true
        ∧ r.Errors.elems = []
        ∧ r.Errors.elems.length = 0
        ∧ r.Errors.isNil = true)
    ∧ ((FixJSON
        (cannedWorld 200
          { data := FixJSONResponse.encode { FixedJSON := ascii "\x7b \"a\" : 1 \x7d" },
            readErr := none })
        (NewClient (ascii "lg-m-key") []) (some { id := 0 }) (ascii "\x7ba:1")).err = none
      ∧ (FixJSON
        (cannedWorld 200
          { data := FixJSONResponse.encode { FixedJSON := ascii "\x7b \"a\" : 1 \x7d" },
            readErr := none })
        (NewClient (ascii "lg-m-key") []) (some { id := 0 }) (ascii "\x7ba:1")).value
        = some { FixedJSON := ascii "\x7b \"a\" : 1 \x7d" }) :=
  ⟨(success_body_decodes_to_equal_result
      (cannedWorld 200
        { data := PingResponse.encode { Message := ascii "pong <ok>" } ++ ascii "\n",
          readErr := none })
      (NewClient (ascii "lg-m-key") []) { id := 0 }
      { StatusCode := 200,
        Body := { data := PingResponse.encode { Message := ascii "pong <ok>" } ++ ascii "\n",
                  readErr := none } }
      (ascii "\n") (by decide)).1
      { Message := ascii "pong <ok>" } (by decide) rfl rfl rfl,
    (success_body_decodes_to_equal_result
      (cannedWorld 200
        { data := ValidateResponse.encode
            { IsValid := false,
              Errors := ErrorSlice.slice
                [{ Field := ascii "age", Error := ascii "must be > 0" },
                 { Field := [0xC3, 0xA9], Error := [] }] [] },
          readErr := none })
      (NewClient (ascii "lg-m-key") []) { id := 0 }
      { StatusCode := 200,
        Body := { data := ValidateResponse.encode
                    { IsValid := false,
                      Errors := ErrorSlice.slice
                        [{ Field := ascii "age", Error := ascii "must be > 0" },
                         { Field := [0xC3, 0xA9], Error := [] }] [] },
                  readErr := none } }
      [] (by decide)).2.1
      { IsValid := false,
        Errors := ErrorSlice.slice
          [{ Field := ascii "age", Error := ascii "must be > 0" },
           { Field := [0xC3, 0xA9], Error := [] }] [] }
      (ascii "spec") (ascii "doc") (ascii "op") (by decide) rfl rfl (by simp),
    (success_body_decodes_to_equal_result
      (cannedWorld 200
        { data := ValidateResponse.encode { IsValid := true, Errors := ErrorSlice.nil },
          readErr := none })
      (NewClient (ascii "lg-m-key") []) { id := 0 }
      { StatusCode := 200,
        Body := { data := ValidateResponse.encode
                    { IsValid := true, Errors := ErrorSlice.nil },
                  readErr := none } }
      [] (by decide)).2.1
      { IsValid := true, Errors := ErrorSlice.nil }
      (ascii "spec") (ascii "doc") (ascii "op") (by decide) rfl rfl (by simp),
    (success_body_decodes_to_equal_result
      (cannedWorld 200
        { data := FixJSONResponse.encode { FixedJSON := ascii "\x7b \"a\" : 1 \x7d" },
          readErr := none })
      (NewClient (ascii "lg-m-key") []) { id := 0 }
      { StatusCode := 200,
        Body := { data := FixJSONResponse.encode { FixedJSON := ascii "\x7b \"a\" : 1 \x7d" },
                  readErr := none } }
      [] (by decide)).2.2
      { FixedJSON := ascii "\x7b \"a\" : 1 \x7d" } (ascii "\x7ba:1") (by decide) rfl rfl
      (by simp)⟩

end Marshal
